import Mathlib

/-!
# Broadcast hub, workspace service and CSRF middleware of the chat backend

A shallow embedding of `internal/websocket/hub.go`: Go maps are finite
association lists with pairwise distinct keys, `*Client` pointers are addresses
into an explicit client memory, buffered channels are bounded lists with a
closed flag, and the two Go run-time faults the hub can raise (sending on a
closed channel, closing a closed channel) are the `none` results of the
operations.

The methods of `internal/service/workspace_service.go` run against any
implementation of the repository interface, passing its store along and
recording every call made on it; `internal/middleware/csrf_middleware.go` is a
function from the request to what the handler does with it.
-/

namespace SlackHub

/-! ## Go maps -/

section AssocList

variable {K V : Type} [DecidableEq K]

/-- First value stored under `k` in an association list. -/
def lookupL (k : K) : List (K × V) → Option V
  | [] => none
  | e :: es => if e.1 = k then some e.2 else lookupL k es

/-- Overwrite the value stored under `k`, keeping the position of the entry. -/
def replaceL (k : K) (v : V) (es : List (K × V)) : List (K × V) :=
  es.map (fun e => if e.1 = k then (k, v) else e)

/-- Drop every entry stored under `k`. -/
def eraseL (k : K) (es : List (K × V)) : List (K × V) :=
  es.filter (fun e => decide (e.1 ≠ k))

end AssocList

/-- A Go `map[K]V`: finitely many entries, no key twice. The order of the
entries is the order in which a `range` loop of the model visits them. -/
structure GoMap (K V : Type) where
  entries : List (K × V)
  nodup : (entries.map Prod.fst).Nodup

namespace GoMap

variable {K V : Type} [DecidableEq K]

instance instDecidableEq [DecidableEq V] : DecidableEq (GoMap K V) := fun a b =>
  decidable_of_iff (a.entries = b.entries)
    ⟨fun h => by cases a; cases b; cases h; rfl, fun h => by rw [h]⟩

/-- The result of `make(map[K]V)`. -/
def empty : GoMap K V := ⟨[], List.nodup_nil⟩

/-- The keys a `range` loop visits. -/
def keys (m : GoMap K V) : List K := m.entries.map Prod.fst

/-- The two-result index expression `v, ok := m[k]`. -/
def get? (m : GoMap K V) (k : K) : Option V := lookupL k m.entries

/-- The `ok` of `_, ok := m[k]`. -/
def contains (m : GoMap K V) (k : K) : Bool := (m.get? k).isSome

/-- The built-in `len(m)`. -/
def len (m : GoMap K V) : Nat := m.entries.length

/-- The assignment `m[k] = v`. -/
def set (m : GoMap K V) (k : K) (v : V) : GoMap K V :=
  if h : k ∈ m.keys then
    ⟨replaceL k v m.entries, by
      have hk : (replaceL k v m.entries).map Prod.fst = m.entries.map Prod.fst := by
        simp only [replaceL, List.map_map]
        apply List.map_congr_left
        intro e _
        by_cases he : e.1 = k <;> simp [he]
      rw [hk]; exact m.nodup⟩
  else
    ⟨m.entries ++ [(k, v)], by
      rw [List.map_append, List.nodup_append]
      refine ⟨m.nodup, by simp, ?_⟩
      intro a ha hb
      simp at hb
      subst hb
      exact h ha⟩

/-- The built-in `delete(m, k)`. -/
def delete (m : GoMap K V) (k : K) : GoMap K V :=
  ⟨eraseL k m.entries, by
    have hs : (eraseL k m.entries).Sublist m.entries := List.filter_sublist _
    exact (hs.map Prod.fst).nodup m.nodup⟩

/-- Apply `f` in place to the value stored under `k`; an absent key is left
absent. This is how a statement that mutates the inner map `m[k]` acts on the
outer map `m`. -/
def modify (m : GoMap K V) (k : K) (f : V → V) : GoMap K V :=
  match m.get? k with
  | some v => m.set k (f v)
  | none => m

/-- The index expression `m[k]` of a map of maps: the inner map, or the nil
map (which reads as an empty one) when the key is absent. -/
def index {K2 : Type} (m : GoMap K (GoMap K2 V)) (k : K) : GoMap K2 V :=
  match m.get? k with
  | some v => v
  | none => ⟨[], List.nodup_nil⟩

end GoMap

/-! ## Identifiers, envelopes, channels and clients -/

/-- A `uuid.UUID`, sixteen bytes. -/
structure UUID where
  bytes : List (Fin 256)
  size : bytes.length = 16
deriving DecidableEq

/-- The table `hextable` of the hexadecimal encoder. -/
def hextable : List Char := "0123456789abcdef".toList

/-- Two lower-case hexadecimal digits per byte, high nibble first. -/
def encodeHex (src : List (Fin 256)) : List Char :=
  src.flatMap (fun v => [hextable.getD (v.val / 16) '0', hextable.getD (v.val % 16) '0'])

/-- Modelled from the spec: `uuid.UUID.String` belongs to the imported UUID
package, whose source is not part of the repository; the hub only relies on it
being the canonical 36-character hyphenated text, groups of 8-4-4-4-12 digits. -/
def UUID.String (u : UUID) : String :=
  ⟨encodeHex (u.bytes.take 4) ++ '-' ::
    (encodeHex ((u.bytes.drop 4).take 2) ++ '-' ::
      (encodeHex ((u.bytes.drop 6).take 2) ++ '-' ::
        (encodeHex ((u.bytes.drop 8).take 2) ++ '-' ::
          encodeHex (u.bytes.drop 10))))⟩

/-- Modelled from the spec: the declaration of `WSMessage` is not among the
sources. The hub reads its three optional scope identifiers (a nil pointer is
`none`); everything else is the payload, which the hub never inspects and which
a number stands for here. -/
structure WSMessage where
  ChannelID : Option UUID
  WorkspaceID : Option UUID
  UserID : Option UUID
  payload : Nat
deriving DecidableEq

/-- A Go buffered `chan *WSMessage`: pending envelopes oldest first, the
capacity fixed at `make`, and whether `close` has been called. -/
structure Chan where
  buf : List WSMessage
  cap : Nat
  closed : Bool
deriving DecidableEq

/-- Modelled from the spec: the declaration of `Client` is not among the
sources. The hub reads two of its fields, the identity `userID` and the bounded
outbound queue `send`. -/
structure Client where
  userID : UUID
  send : Chan
deriving DecidableEq

/-- A `*Client`: an address; two handles are the same iff the addresses are. -/
abbrev ClientPtr := Nat

/-- The statement `select { case ch <- message: default: }`. Sending on a
closed channel panics (`none`); a channel with room takes the envelope at its
tail; a full one takes the `default` branch. -/
def trySend (ch : Chan) (message : WSMessage) : Option Chan :=
  if ch.closed then none
  else if ch.buf.length < ch.cap then some { ch with buf := ch.buf ++ [message] }
  else some ch

/-- The built-in `close(ch)`; closing a closed channel panics (`none`). -/
def closeChan (ch : Chan) : Option Chan :=
  if ch.closed then none else some { ch with closed := true }

/-! ## The hub -/

/-- The maps of `Hub` together with the memory the `*Client` keys point into.
The three event channels of the Go struct are the constructors of `Op`. -/
structure Hub where
  clients : GoMap ClientPtr Bool
  rooms : GoMap String (GoMap ClientPtr Bool)
  mem : ClientPtr → Client

/-- `NewHub`, in a memory `mem` of client objects. -/
def NewHub (mem : ClientPtr → Client) : Hub :=
  { clients := GoMap.empty, rooms := GoMap.empty, mem := mem }

/-- The `register` case of `Run`. -/
def register (h : Hub) (client : ClientPtr) : Hub :=
  { h with clients := h.clients.set client true }

/-- One iteration of the clean-up loop of the `unregister` case. -/
def unregisterRoom (client : ClientPtr) (rooms : GoMap String (GoMap ClientPtr Bool))
    (roomID : String) : GoMap String (GoMap ClientPtr Bool) :=
  let rooms1 := rooms.modify roomID (fun room => room.delete client)
  if (rooms1.index roomID).len = 0 then rooms1.delete roomID else rooms1

/-- The `unregister` case of `Run`. -/
def unregister (h : Hub) (client : ClientPtr) : Option Hub :=
  if h.clients.contains client then
    match closeChan (h.mem client).send with
    | none => none
    | some ch =>
      some { clients := h.clients.delete client
             rooms := h.rooms.keys.foldl (unregisterRoom client) h.rooms
             mem := Function.update h.mem client { h.mem client with send := ch } }
  else some h

/-- The non-blocking send of one envelope to one client. -/
def sendTo (message : WSMessage) (mem : ClientPtr → Client) (client : ClientPtr) :
    Option (ClientPtr → Client) :=
  match trySend (mem client).send message with
  | none => none
  | some ch => some (Function.update mem client { mem client with send := ch })

/-- The loop `for client := range targetClients` of `handleBroadcast`. -/
def sendAll (message : WSMessage) (targetClients : GoMap ClientPtr Bool)
    (mem : ClientPtr → Client) : Option (ClientPtr → Client) :=
  targetClients.keys.foldlM (sendTo message) mem

/-- The loop of the user scope of `handleBroadcast`. -/
def sendUser (message : WSMessage) (userID : UUID) (clients : GoMap ClientPtr Bool)
    (mem : ClientPtr → Client) : Option (ClientPtr → Client) :=
  clients.keys.foldlM
    (fun mem client => if (mem client).userID = userID then sendTo message mem client else some mem)
    mem

/-- The method `handleBroadcast`. -/
def handleBroadcast (h : Hub) (message : WSMessage) : Option Hub :=
  match message.ChannelID with
  | some channelID =>
    (sendAll message (h.rooms.index ("channel:" ++ channelID.String)) h.mem).map
      (fun mem => { h with mem := mem })
  | none =>
    match message.WorkspaceID with
    | some workspaceID =>
      (sendAll message (h.rooms.index ("workspace:" ++ workspaceID.String)) h.mem).map
        (fun mem => { h with mem := mem })
    | none =>
      match message.UserID with
      | some userID =>
        (sendUser message userID h.clients h.mem).map (fun mem => { h with mem := mem })
      | none =>
        (sendAll message h.clients h.mem).map (fun mem => { h with mem := mem })

/-- The method `JoinRoom`. -/
def JoinRoom (h : Hub) (roomType : String) (id : UUID) (client : ClientPtr) : Hub :=
  let roomID := roomType ++ ":" ++ id.String
  let rooms1 := if h.rooms.get? roomID = none then h.rooms.set roomID GoMap.empty else h.rooms
  { h with rooms := rooms1.modify roomID (fun room => room.set client true) }

/-- The method `LeaveRoom`. -/
def LeaveRoom (h : Hub) (roomType : String) (id : UUID) (client : ClientPtr) : Hub :=
  let roomID := roomType ++ ":" ++ id.String
  if h.rooms.get? roomID ≠ none then
    let rooms1 := h.rooms.modify roomID (fun room => room.delete client)
    if (rooms1.index roomID).len = 0 then { h with rooms := rooms1.delete roomID }
    else { h with rooms := rooms1 }
  else h

/-- Whether an operation panicked can be decided without comparing states. -/
instance decidableEqNone {α : Type} (o : Option α) : Decidable (o = none) :=
  decidable_of_iff (o.isNone = true) (by cases o <;> simp)

/-- The requests the hub serves: the three events `Run` receives and the two
direct calls. -/
inductive Op where
  | register (client : ClientPtr)
  | unregister (client : ClientPtr)
  | join (roomType : String) (id : UUID) (client : ClientPtr)
  | leave (roomType : String) (id : UUID) (client : ClientPtr)
  | broadcast (message : WSMessage)

/-- Serve one request; `none` is a Go panic. -/
def step (h : Hub) : Op → Option Hub
  | .register client => some (register h client)
  | .unregister client => unregister h client
  | .join roomType id client => some (JoinRoom h roomType id client)
  | .leave roomType id client => some (LeaveRoom h roomType id client)
  | .broadcast message => handleBroadcast h message

/-- Serve a sequence of requests in order, stopping at the first panic. -/
def run (h : Hub) : List Op → Option Hub
  | [] => some h
  | op :: ops => (step h op).bind (fun h1 => run h1 ops)

/-- What the clean-up of one room (delete the client, drop the room if that
empties it) leaves under the key of the room. -/
def pruned (client : ClientPtr) :
    Option (GoMap ClientPtr Bool) → Option (GoMap ClientPtr Bool)
  | none => none
  | some room => if (room.delete client).len = 0 then none else some (room.delete client)

/-- A client whose outbound queue took `message` at the tail if it had room,
and is as before if it was full. -/
def enqueue (cl : Client) (message : WSMessage) : Client :=
  if cl.send.buf.length < cl.send.cap then
    { cl with send := { cl.send with buf := cl.send.buf ++ [message] } }
  else cl

/-- The members of the room stored under `roomID`; none if the key is absent. -/
def members (h : Hub) (roomID : String) : List ClientPtr :=
  (h.rooms.index roomID).keys

/-- The handles in the Registry. -/
def registered (h : Hub) : List ClientPtr := h.clients.keys

/-- The audience `handleBroadcast` resolves for an envelope: the room of the
channel, else the room of the workspace, else the registered clients of the
user, else every registered client. -/
def audience (h : Hub) (message : WSMessage) : List ClientPtr :=
  match message.ChannelID with
  | some channelID => members h ("channel:" ++ channelID.String)
  | none =>
    match message.WorkspaceID with
    | some workspaceID => members h ("workspace:" ++ workspaceID.String)
    | none =>
      match message.UserID with
      | some userID => (registered h).filter (fun c => decide ((h.mem c).userID = userID))
      | none => registered h

/-- The hub state that differs from `h` only in the contents of the outbound
queue of `r`. -/
def withQueue (h : Hub) (r : ClientPtr) (buf : List WSMessage) : Hub :=
  { h with
    mem := Function.update h.mem r ({ h.mem r with send := { (h.mem r).send with buf := buf } }) }

/-- Whether a sequence of requests, served from `h`, calls `JoinRoom` only for
clients that are in the Registry at the time of the call. -/
def joinsRegistered (h : Hub) : List Op → Bool
  | [] => true
  | op :: ops =>
    (match op with
      | .join _ _ client => h.clients.contains client
      | _ => true) &&
    (match step h op with
      | some h1 => joinsRegistered h1 ops
      | none => true)

/-- Whether a sequence of requests, served from `h`, calls `Register` and
`JoinRoom` only for clients whose outbound queue has not been closed. -/
def admitsOpen (h : Hub) : List Op → Bool
  | [] => true
  | op :: ops =>
    (match op with
      | .register client => !(h.mem client).send.closed
      | .join _ _ client => !(h.mem client).send.closed
      | _ => true) &&
    (match step h op with
      | some h1 => admitsOpen h1 ops
      | none => true)

/-! ## Workspace service (`internal/service/workspace_service.go`) -/

/-- Modelled from the spec: the declaration of `models.Workspace` is not among
the sources. These are the fields the service and the repository read and
write; the two time stamps are numbers, 0 being the zero time. -/
structure Workspace where
  ID : UUID
  Name : String
  Slug : String
  IconURL : Option String
  OwnerID : UUID
  CreatedAt : Nat
  UpdatedAt : Nat
deriving DecidableEq

/-- The request `dto.CreateWorkspaceRequest`. -/
structure CreateWorkspaceRequest where
  Name : String
  Slug : String
  IconURL : Option String
deriving DecidableEq

/-- The request `dto.UpdateWorkspaceRequest`; a nil pointer is `none`. -/
structure UpdateWorkspaceRequest where
  Name : Option String
  IconURL : Option String
deriving DecidableEq

/-- A non-nil Go `error`: the three sentinel errors of the service, or any
other error a repository hands back. -/
inductive Err where
  | ErrWorkspaceNotFound
  | ErrWorkspaceExists
  | ErrUnauthorized
  | other (text : String)
deriving DecidableEq

/-- The methods of the interface `repository.WorkspaceRepository` that
`CreateWorkspace`, `UpdateWorkspace` and `DeleteWorkspace` call, over a store
of type `σ` that every call may change. A lookup hands back the two results of
the Go method, a possibly nil workspace and a possibly nil error. `Create`
receives a pointer and, as `postgresWorkspaceRepository.Create` does with
`Scan(&workspace.CreatedAt, &workspace.UpdatedAt)`, may write the two time
stamps of the object: they are its first result. -/
structure WorkspaceRepository (σ : Type) where
  Create : σ → Workspace → UUID → (Option (Nat × Nat) × Option Err) × σ
  FindByID : σ → UUID → (Option Workspace × Option Err) × σ
  FindBySlug : σ → String → (Option Workspace × Option Err) × σ
  Update : σ → Workspace → Option Err × σ
  Delete : σ → UUID → Option Err × σ

/-- A call the service makes on its repository. -/
inductive RepoCall where
  | Create (workspace : Workspace) (ownerID : UUID)
  | FindByID (id : UUID)
  | FindBySlug (slug : String)
  | Update (workspace : Workspace)
  | Delete (id : UUID)
deriving DecidableEq

/-- The store behind the repository together with the record of the calls the
service has made on the repository, oldest first. -/
structure RepoState (σ : Type) where
  db : σ
  calls : List RepoCall

/-- The method `CreateWorkspace`; `newID` is the result of `uuid.New()`. -/
def CreateWorkspace {σ : Type} (repo : WorkspaceRepository σ) (newID : UUID)
    (s : RepoState σ) (userID : UUID) (req : CreateWorkspaceRequest) :
    (Option Workspace × Option Err) × RepoState σ :=
  let found := repo.FindBySlug s.db req.Slug
  let s1 : RepoState σ := { db := found.2, calls := s.calls ++ [.FindBySlug req.Slug] }
  match found.1.2 with
  | some err => ((none, some err), s1)
  | none =>
    match found.1.1 with
    | some _ => ((none, some .ErrWorkspaceExists), s1)
    | none =>
      let workspace : Workspace :=
        { ID := newID, Name := req.Name, Slug := req.Slug, IconURL := req.IconURL,
          OwnerID := userID, CreatedAt := 0, UpdatedAt := 0 }
      let created := repo.Create s1.db workspace userID
      let s2 : RepoState σ :=
        { db := created.2, calls := s1.calls ++ [.Create workspace userID] }
      let workspace1 : Workspace :=
        match created.1.1 with
        | some stamps => { workspace with CreatedAt := stamps.1, UpdatedAt := stamps.2 }
        | none => workspace
      match created.1.2 with
      | some err => ((none, some err), s2)
      | none => ((some workspace1, none), s2)

/-- The method `UpdateWorkspace`. -/
def UpdateWorkspace {σ : Type} (repo : WorkspaceRepository σ) (s : RepoState σ)
    (userID wsID : UUID) (req : UpdateWorkspaceRequest) :
    (Option Workspace × Option Err) × RepoState σ :=
  let found := repo.FindByID s.db wsID
  let s1 : RepoState σ := { db := found.2, calls := s.calls ++ [.FindByID wsID] }
  match found.1.2 with
  | some err => ((none, some err), s1)
  | none =>
    match found.1.1 with
    | none => ((none, some .ErrWorkspaceNotFound), s1)
    | some ws =>
      if ws.OwnerID ≠ userID then ((none, some .ErrUnauthorized), s1)
      else
        let ws1 : Workspace :=
          match req.Name with
          | some name => { ws with Name := name }
          | none => ws
        let ws2 : Workspace :=
          match req.IconURL with
          | some icon => { ws1 with IconURL := some icon }
          | none => ws1
        let updated := repo.Update s1.db ws2
        let s2 : RepoState σ := { db := updated.2, calls := s1.calls ++ [.Update ws2] }
        match updated.1 with
        | some err => ((none, some err), s2)
        | none => ((some ws2, none), s2)

/-- The method `DeleteWorkspace`. -/
def DeleteWorkspace {σ : Type} (repo : WorkspaceRepository σ) (s : RepoState σ)
    (userID wsID : UUID) : Option Err × RepoState σ :=
  let found := repo.FindByID s.db wsID
  let s1 : RepoState σ := { db := found.2, calls := s.calls ++ [.FindByID wsID] }
  match found.1.2 with
  | some err => (some err, s1)
  | none =>
    match found.1.1 with
    | none => (some .ErrWorkspaceNotFound, s1)
    | some ws =>
      if ws.OwnerID ≠ userID then (some .ErrUnauthorized, s1)
      else
        let deleted := repo.Delete s1.db wsID
        (deleted.1, { db := deleted.2, calls := s1.calls ++ [.Delete wsID] })

/-! ## CSRF middleware (`internal/middleware/csrf_middleware.go`) -/

/-- What the middleware reads of a request: the method, and `c.GetHeader`,
which is the empty string for a header the request does not carry. -/
structure Request where
  Method : String
  GetHeader : String → String

/-- What the middleware does with a request: `c.Next()`, or `c.JSON` with a
status and an error text followed by `c.Abort()`. -/
inductive Outcome where
  | next
  | abort (status : Nat) (error : String)
deriving DecidableEq

/-- The handler `CSRFMiddleware(allowedOrigins)` returns. The loop sets
`isAllowed` when `strings.HasPrefix(origin, o)` holds for some allowed `o`. -/
def CSRFMiddleware (allowedOrigins : List String) (c : Request) : Outcome :=
  if c.Method = "GET" ∨ c.Method = "HEAD" ∨ c.Method = "OPTIONS" then .next
  else
    let origin := if c.GetHeader "Origin" = "" then c.GetHeader "Referer" else c.GetHeader "Origin"
    let isAllowed := allowedOrigins.any (fun o => o.toList.isPrefixOf origin.toList)
    if !isAllowed ∧ origin ≠ "" then .abort 403 "CSRF: Origin not allowed"
    else if c.GetHeader "X-Requested-With" = "" ∧ c.GetHeader "X-CSRF-Token" = "" then
      .abort 403 "CSRF: Missing required security headers"
    else .next

/-! ## Sample data -/

/-- A sample identifier. -/
def idA : UUID := ⟨List.replicate 16 1, by decide⟩

/-- A second sample identifier. -/
def idB : UUID := ⟨List.replicate 16 171, by decide⟩

/-- A memory in which every client is user `idA` with an open, empty queue of
capacity two. -/
def memOpen : ClientPtr → Client := fun _ => ⟨idA, ⟨[], 2, false⟩⟩

/-- An envelope for channel `idA`. -/
def msgA : WSMessage := ⟨some idA, none, none, 7⟩

/-- Client 3 registered and joined to channel `idA` and workspace `idB`, client 4
registered and joined to channel `idA`. -/
def hubTwo : Hub :=
  JoinRoom (JoinRoom (JoinRoom (register (register (NewHub memOpen) 3) 4) "channel" idA 3)
    "workspace" idB 3) "channel" idA 4

/-- An envelope with no scope field set. -/
def msgGlobal : WSMessage := ⟨none, none, none, 8⟩

/-- An envelope for user `idA`. -/
def msgUser : WSMessage := ⟨none, none, some idA, 9⟩

/-- Client 3 in channel `idA` only and client 4 in channel `idB` only, both
registered. -/
def hubApart : Hub :=
  JoinRoom (JoinRoom (register (register (NewHub memOpen) 3) 4) "channel" idA 3) "channel" idB 4

/-- The sample hub `hubTwo` with the queue of client 4 filled to capacity. -/
def hubFull : Hub := withQueue hubTwo 4 [msgGlobal, msgGlobal]

/-- A request sequence that registers before joining, broadcasts, and
unregisters a room member. -/
def opsOrderly : List Op :=
  [.register 3, .register 4, .join "channel" idA 3, .join "channel" idA 4,
    .broadcast msgA, .unregister 3]

/-- A request sequence in which the last member of a channel leaves and the
only member of a workspace unregisters. -/
def opsChurn : List Op :=
  [.register 3, .join "channel" idA 3, .join "workspace" idB 3, .register 4,
    .join "channel" idB 4, .leave "channel" idB 4, .unregister 3,
    .join "workspace" idA 4]

/-- Two more sample identifiers, a user and a second user. -/
def idC : UUID := ⟨List.replicate 16 12, by decide⟩

/-- A sample identifier for a freshly created workspace. -/
def idD : UUID := ⟨List.replicate 16 13, by decide⟩

/-- A repository that keeps its workspaces in a list: lookups take the first
match and never fail, `Create` stamps the new row with the time 5. -/
def listRepo : WorkspaceRepository (List Workspace) :=
  { Create := fun db ws _ =>
      ((some (5, 5), none), db ++ [{ ws with CreatedAt := 5, UpdatedAt := 5 }])
    FindByID := fun db id => ((db.find? (fun w => decide (w.ID = id)), none), db)
    FindBySlug := fun db slug => ((db.find? (fun w => decide (w.Slug = slug)), none), db)
    Update := fun db ws =>
      (none, db.map (fun w =>
        if w.ID = ws.ID then { w with Name := ws.Name, IconURL := ws.IconURL } else w))
    Delete := fun db id => (none, db.filter (fun w => decide (w.ID ≠ id))) }

/-- A store with one workspace, `idA`, owned by user `idB`. -/
def oneWorkspace : RepoState (List Workspace) :=
  { db := [{ ID := idA, Name := "General", Slug := "general", IconURL := none,
             OwnerID := idB, CreatedAt := 1, UpdatedAt := 1 }]
    calls := [] }

/-- A request to rename a workspace. -/
def renameReq : UpdateWorkspaceRequest := { Name := some "Renamed", IconURL := none }

/-- A request to create a workspace whose slug is taken in `oneWorkspace`. -/
def takenReq : CreateWorkspaceRequest := { Name := "Other", Slug := "general", IconURL := none }

/-- A request to create a workspace whose slug is free in `oneWorkspace`. -/
def freshReq : CreateWorkspaceRequest :=
  { Name := "Random", Slug := "random", IconURL := some "icon.png" }

/-- A POST request whose Origin extends the allowed origin
`https://app.example.com` into another host, with a custom header set. -/
def foreignPost : Request :=
  { Method := "POST"
    GetHeader := fun key =>
      if key = "Origin" then "https://app.example.com.evil.io"
      else if key = "X-Requested-With" then "XMLHttpRequest"
      else "" }

/-! ## Facts about Go maps -/

section AssocListFacts

variable {K V : Type} [DecidableEq K]

theorem lookupL_eq_none_iff (k : K) (es : List (K × V)) :
    lookupL k es = none ↔ k ∉ es.map Prod.fst := by
  induction es with
  | nil => simp [lookupL]
  | cons e es ih =>
    by_cases h : e.1 = k
    · simp [lookupL, h]
    · have h' : ¬ k = e.1 := fun hh => h hh.symm
      simp [lookupL, h, h', ih]

theorem lookupL_replaceL (k k' : K) (v : V) (es : List (K × V)) :
    lookupL k' (replaceL k v es) =
      if k' = k then (lookupL k es).map (fun _ => v) else lookupL k' es := by
  induction es with
  | nil => simp [lookupL, replaceL]
  | cons e es ih =>
    simp only [replaceL, List.map_cons] at ih ⊢
    by_cases h : e.1 = k
    · by_cases h2 : k' = k
      · simp [lookupL, h, h2]
      · have h3 : ¬ k = k' := fun hh => h2 hh.symm
        have h4 : ¬ e.1 = k' := fun hh => h2 (hh.symm.trans h)
        simp [lookupL, h, h2, h3, h4, ih]
    · by_cases h2 : k' = k
      · subst h2
        simp [lookupL, h, ih]
      · by_cases h5 : e.1 = k'
        · simp [lookupL, h, h2, h5]
        · simp [lookupL, h, h2, h5, ih]

theorem lookupL_eraseL (k k' : K) (es : List (K × V)) :
    lookupL k' (eraseL k es) = if k' = k then none else lookupL k' es := by
  induction es with
  | nil => simp [lookupL, eraseL]
  | cons e es ih =>
    by_cases h : e.1 = k
    · have he : eraseL k (e :: es) = eraseL k es := by
        simp [eraseL, List.filter_cons, h]
      rw [he, ih]
      by_cases h2 : k' = k
      · simp [h2]
      · have h4 : ¬ e.1 = k' := fun hh => h2 (hh.symm.trans h)
        simp [lookupL, h2, h4]
    · have he : eraseL k (e :: es) = e :: eraseL k es := by
        simp [eraseL, List.filter_cons, h]
      rw [he]
      by_cases h5 : e.1 = k'
      · have h2 : ¬ k' = k := fun hh => h (h5.trans hh)
        simp [lookupL, h5, h2]
      · simp only [lookupL, h5, if_false]
        exact ih

theorem lookupL_append_single (k k' : K) (v : V) (es : List (K × V)) :
    lookupL k' (es ++ [(k, v)]) =
      match lookupL k' es with
      | some w => some w
      | none => if k = k' then some v else none := by
  induction es with
  | nil => simp [lookupL]
  | cons e es ih =>
    by_cases h : e.1 = k'
    · simp [lookupL, h]
    · simp [lookupL, h, ih]

theorem lookupL_of_mem {k : K} {v : V} {es : List (K × V)}
    (nd : (es.map Prod.fst).Nodup) (hm : (k, v) ∈ es) : lookupL k es = some v := by
  induction es with
  | nil => simp at hm
  | cons e es ih =>
    simp only [List.map_cons, List.nodup_cons] at nd
    rcases List.mem_cons.1 hm with h | h
    · subst h; simp [lookupL]
    · have hk : k ∈ es.map Prod.fst := List.mem_map.2 ⟨(k, v), h, rfl⟩
      have hne : ¬ e.1 = k := fun hh => nd.1 (hh ▸ hk)
      simp [lookupL, hne, ih nd.2 h]

end AssocListFacts

namespace GoMap

variable {K V : Type} [DecidableEq K]

omit [DecidableEq K] in
theorem ext_entries {a b : GoMap K V} (h : a.entries = b.entries) : a = b := by
  cases a; cases b; cases h; rfl

theorem get?_eq_none_iff (m : GoMap K V) (k : K) : m.get? k = none ↔ k ∉ m.keys :=
  lookupL_eq_none_iff k m.entries

theorem mem_keys_iff (m : GoMap K V) (k : K) : k ∈ m.keys ↔ ∃ v, m.get? k = some v := by
  rw [← not_iff_not, ← get?_eq_none_iff]
  cases m.get? k <;> simp

theorem get?_set (m : GoMap K V) (k k' : K) (v : V) :
    (m.set k v).get? k' = if k' = k then some v else m.get? k' := by
  unfold set
  by_cases h : k ∈ m.keys
  · rw [dif_pos h]
    show lookupL k' (replaceL k v m.entries) = _
    rw [lookupL_replaceL]
    obtain ⟨w, hw⟩ := (mem_keys_iff m k).1 h
    have hw' : lookupL k m.entries = some w := hw
    by_cases h2 : k' = k
    · simp [h2, hw']
    · simp [h2, get?]
  · rw [dif_neg h]
    show lookupL k' (m.entries ++ [(k, v)]) = _
    rw [lookupL_append_single]
    by_cases h2 : k' = k
    · subst h2
      have hn : lookupL k' m.entries = none := (get?_eq_none_iff m k').2 h
      simp [hn]
    · have h3 : ¬ k = k' := fun hh => h2 hh.symm
      simp only [h2, h3, if_false]
      show _ = lookupL k' m.entries
      cases lookupL k' m.entries <;> rfl

theorem get?_delete (m : GoMap K V) (k k' : K) :
    (m.delete k).get? k' = if k' = k then none else m.get? k' :=
  lookupL_eraseL k k' m.entries

theorem get?_modify (m : GoMap K V) (k k' : K) (f : V → V) :
    (m.modify k f).get? k' = if k' = k then (m.get? k).map f else m.get? k' := by
  unfold modify
  cases hg : m.get? k with
  | none =>
    by_cases h2 : k' = k
    · simp [h2, hg]
    · simp [h2]
  | some v =>
    simp only [get?_set, Option.map_some']

theorem set_eq_self (m : GoMap K V) (k : K) (v : V) (h : m.get? k = some v) :
    m.set k v = m := by
  have hk : k ∈ m.keys := (mem_keys_iff m k).2 ⟨v, h⟩
  apply ext_entries
  unfold set
  rw [dif_pos hk]
  show replaceL k v m.entries = m.entries
  unfold replaceL
  conv_rhs => rw [← List.map_id m.entries]
  apply List.map_congr_left
  intro e he
  by_cases hek : e.1 = k
  · have h1 : lookupL k m.entries = some e.2 :=
      lookupL_of_mem m.nodup (by rw [← hek]; exact he)
    have h2 : e.2 = v := by
      have : some e.2 = some v := h1.symm.trans h
      exact Option.some.inj this
    rw [if_pos hek, ← hek, ← h2]
    rfl
  · rw [if_neg hek]; rfl

theorem delete_eq_self (m : GoMap K V) (k : K) (h : k ∉ m.keys) : m.delete k = m := by
  apply ext_entries
  show eraseL k m.entries = m.entries
  unfold eraseL
  rw [List.filter_eq_self]
  intro e he
  have : e.1 ≠ k := fun hh => h (hh ▸ List.mem_map.2 ⟨e, he, rfl⟩)
  simp [this]

theorem modify_eq_self (m : GoMap K V) (k : K) (f : V → V)
    (h : ∀ v, m.get? k = some v → f v = v) : m.modify k f = m := by
  unfold modify
  cases hg : m.get? k with
  | none => rfl
  | some v =>
    show m.set k (f v) = m
    rw [h v hg]
    exact set_eq_self m k v hg

theorem mem_keys_set (m : GoMap K V) (k k' : K) (v : V) :
    k' ∈ (m.set k v).keys ↔ k' = k ∨ k' ∈ m.keys := by
  rw [mem_keys_iff, mem_keys_iff, get?_set]
  by_cases h : k' = k <;> simp [h]

theorem keys_delete (m : GoMap K V) (k : K) :
    (m.delete k).keys = m.keys.filter (fun a => decide (a ≠ k)) := by
  show (eraseL k m.entries).map Prod.fst = (m.entries.map Prod.fst).filter _
  unfold eraseL
  rw [List.filter_map]
  rfl

theorem mem_keys_delete (m : GoMap K V) (k k' : K) :
    k' ∈ (m.delete k).keys ↔ k' ≠ k ∧ k' ∈ m.keys := by
  rw [keys_delete, List.mem_filter]
  simp [and_comm]

omit [DecidableEq K] in
theorem len_eq_zero_iff (m : GoMap K V) : m.len = 0 ↔ m.keys = [] := by
  unfold len keys
  cases m.entries <;> simp

theorem index_eq_of_get? {K2 : Type} (m : GoMap K (GoMap K2 V)) (k : K) (v : GoMap K2 V)
    (h : m.get? k = some v) : m.index k = v := by
  unfold index; rw [h]

theorem index_keys_of_none {K2 : Type} (m : GoMap K (GoMap K2 V)) (k : K)
    (h : m.get? k = none) : (m.index k).keys = [] := by
  unfold index; rw [h]; rfl

end GoMap

/-! ## The room index under the hub operations -/

theorem get?_unregisterRoom (client : ClientPtr) (rooms : GoMap String (GoMap ClientPtr Bool))
    (roomID k : String) :
    (unregisterRoom client rooms roomID).get? k =
      if k = roomID then pruned client (rooms.get? roomID) else rooms.get? k := by
  unfold unregisterRoom
  cases hg : rooms.get? roomID with
  | none =>
    have hm : rooms.modify roomID (fun room => room.delete client) = rooms := by
      unfold GoMap.modify; rw [hg]
    have hi : (rooms.index roomID).len = 0 := by
      unfold GoMap.index; rw [hg]; rfl
    simp only [hm, hi, if_true, GoMap.get?_delete, pruned]
  | some room =>
    have hi : (rooms.modify roomID (fun room => room.delete client)).index roomID =
        room.delete client := by
      apply GoMap.index_eq_of_get?
      rw [GoMap.get?_modify, if_pos rfl, hg]; rfl
    simp only [hi, pruned]
    by_cases hl : (room.delete client).len = 0
    · simp only [hl, if_true, GoMap.get?_delete, GoMap.get?_modify]
      by_cases h : k = roomID
      · simp [h]
      · simp [h]
    · simp only [hl, if_false, GoMap.get?_modify, hg, Option.map_some']

theorem get?_foldl_unregisterRoom (client : ClientPtr) (ks : List String) (nd : ks.Nodup)
    (rooms : GoMap String (GoMap ClientPtr Bool)) (k : String) :
    (ks.foldl (unregisterRoom client) rooms).get? k =
      if k ∈ ks then pruned client (rooms.get? k) else rooms.get? k := by
  induction ks generalizing rooms with
  | nil => simp
  | cons k0 ks ih =>
    rw [List.nodup_cons] at nd
    rw [List.foldl_cons, ih nd.2, get?_unregisterRoom]
    by_cases h : k = k0
    · subst h
      simp [nd.1]
    · simp [h]

theorem get?_unregister_rooms (client : ClientPtr) (rooms : GoMap String (GoMap ClientPtr Bool))
    (k : String) :
    (rooms.keys.foldl (unregisterRoom client) rooms).get? k = pruned client (rooms.get? k) := by
  rw [get?_foldl_unregisterRoom client rooms.keys rooms.nodup]
  by_cases h : k ∈ rooms.keys
  · simp [h]
  · have hn : rooms.get? k = none := (GoMap.get?_eq_none_iff rooms k).2 h
    simp [h, hn, pruned]

theorem keys_index_of_pruned (client : ClientPtr) (rooms rooms1 : GoMap String (GoMap ClientPtr Bool))
    (k : String) (h : rooms1.get? k = pruned client (rooms.get? k)) :
    (rooms1.index k).keys = (rooms.index k).keys.filter (fun a => decide (a ≠ client)) := by
  cases hg : rooms.get? k with
  | none =>
    rw [hg] at h
    rw [GoMap.index_keys_of_none rooms1 k h, GoMap.index_keys_of_none rooms k hg]
    rfl
  | some room =>
    rw [hg] at h
    rw [GoMap.index_eq_of_get? rooms k room hg, ← GoMap.keys_delete]
    simp only [pruned] at h
    by_cases hl : (room.delete client).len = 0
    · rw [if_pos hl] at h
      rw [GoMap.index_keys_of_none rooms1 k h]
      exact ((GoMap.len_eq_zero_iff _).1 hl).symm
    · rw [if_neg hl] at h
      rw [GoMap.index_eq_of_get? rooms1 k _ h]

theorem get?_rooms_LeaveRoom (h : Hub) (roomType : String) (id : UUID) (client : ClientPtr)
    (k : String) :
    (LeaveRoom h roomType id client).rooms.get? k =
      if k = roomType ++ ":" ++ id.String then pruned client (h.rooms.get? k)
      else h.rooms.get? k := by
  have key := get?_unregisterRoom client h.rooms (roomType ++ ":" ++ id.String) k
  unfold unregisterRoom at key
  unfold LeaveRoom
  by_cases hn : h.rooms.get? (roomType ++ ":" ++ id.String) = none
  · simp only [hn, ne_eq, not_true_eq_false, if_false]
    by_cases hk : k = roomType ++ ":" ++ id.String
    · subst hk; simp [hn, pruned]
    · simp [hk]
  · simp only [ne_eq, hn, not_false_eq_true, if_true]
    by_cases hl : ((h.rooms.modify (roomType ++ ":" ++ id.String)
        (fun room => room.delete client)).index (roomType ++ ":" ++ id.String)).len = 0
    · simp only [hl, if_true] at key ⊢
      rw [key]
      by_cases hk : k = roomType ++ ":" ++ id.String
      · subst hk; simp
      · simp [hk]
    · simp only [hl, if_false] at key ⊢
      rw [key]
      by_cases hk : k = roomType ++ ":" ++ id.String
      · subst hk; simp
      · simp [hk]

theorem get?_rooms_JoinRoom (h : Hub) (roomType : String) (id : UUID) (client : ClientPtr)
    (k : String) :
    (JoinRoom h roomType id client).rooms.get? k =
      if k = roomType ++ ":" ++ id.String then
        some ((h.rooms.index (roomType ++ ":" ++ id.String)).set client true)
      else h.rooms.get? k := by
  unfold JoinRoom
  simp only
  cases hg : h.rooms.get? (roomType ++ ":" ++ id.String) with
  | none =>
    simp only [if_true, GoMap.get?_modify, GoMap.get?_set]
    have hi : h.rooms.index (roomType ++ ":" ++ id.String) = GoMap.empty := by
      unfold GoMap.index; rw [hg]; rfl
    rw [hi]
    by_cases hk : k = roomType ++ ":" ++ id.String
    · simp [hk]
    · simp [hk]
  | some room =>
    simp only [if_false, GoMap.get?_modify, hg, Option.map_some',
      GoMap.index_eq_of_get? h.rooms _ room hg]
    by_cases hk : k = roomType ++ ":" ++ id.String
    · simp [hk, hg]
    · simp [hk]

/-! ## Delivery -/

theorem sendTo_open (m : WSMessage) (mem : ClientPtr → Client) (c : ClientPtr)
    (h : (mem c).send.closed = false) :
    sendTo m mem c = some (Function.update mem c (enqueue (mem c) m)) := by
  unfold sendTo trySend enqueue
  by_cases hl : (mem c).send.buf.length < (mem c).send.cap
  · simp [h, hl]
  · simp [h, hl]

theorem sendTo_closed (m : WSMessage) (mem : ClientPtr → Client) (c : ClientPtr)
    (h : (mem c).send.closed = true) : sendTo m mem c = none := by
  unfold sendTo trySend
  simp [h]

theorem foldlM_send (m : WSMessage) (P : Client → Prop) [DecidablePred P]
    (ks : List ClientPtr) (nd : ks.Nodup) (mem : ClientPtr → Client)
    (hopen : ∀ c ∈ ks, P (mem c) → (mem c).send.closed = false) :
    ks.foldlM (fun mem c => if P (mem c) then sendTo m mem c else some mem) mem =
      some (fun p => if p ∈ ks ∧ P (mem p) then enqueue (mem p) m else mem p) := by
  induction ks generalizing mem with
  | nil => simp
  | cons c ks ih =>
    rw [List.nodup_cons] at nd
    rw [List.foldlM_cons]
    by_cases hP : P (mem c)
    · rw [if_pos hP, sendTo_open m mem c (hopen c (List.mem_cons_self _ _) hP)]
      have hne : ∀ p ∈ ks, p ≠ c := fun p hp hpc => nd.1 (hpc ▸ hp)
      show ks.foldlM _ (Function.update mem c (enqueue (mem c) m)) = _
      rw [ih nd.2]
      · congr 1
        funext p
        by_cases hpc : p = c
        · subst hpc
          simp [nd.1, hP]
        · simp [hpc, Function.update_noteq hpc]
      · intro p hp hPp
        rw [Function.update_noteq (hne p hp)] at hPp ⊢
        exact hopen p (List.mem_cons_of_mem _ hp) hPp
    · rw [if_neg hP]
      show ks.foldlM _ mem = _
      rw [ih nd.2 mem (fun p hp => hopen p (List.mem_cons_of_mem _ hp))]
      congr 1
      funext p
      by_cases hpc : p = c
      · subst hpc
        simp [nd.1, hP]
      · simp [hpc]

theorem sendAll_spec (m : WSMessage) (targetClients : GoMap ClientPtr Bool)
    (mem : ClientPtr → Client)
    (hopen : ∀ c ∈ targetClients.keys, (mem c).send.closed = false) :
    sendAll m targetClients mem =
      some (fun p => if p ∈ targetClients.keys then enqueue (mem p) m else mem p) := by
  have key := foldlM_send m (fun _ => True) targetClients.keys targetClients.nodup mem
    (fun c hc _ => hopen c hc)
  simp only [if_true, and_true] at key
  exact key

theorem sendUser_spec (m : WSMessage) (userID : UUID) (clients : GoMap ClientPtr Bool)
    (mem : ClientPtr → Client)
    (hopen : ∀ c ∈ clients.keys, (mem c).userID = userID → (mem c).send.closed = false) :
    sendUser m userID clients mem =
      some (fun p => if p ∈ clients.keys ∧ (mem p).userID = userID then enqueue (mem p) m
        else mem p) :=
  foldlM_send m (fun cl => cl.userID = userID) clients.keys clients.nodup mem hopen

theorem handleBroadcast_spec (h : Hub) (m : WSMessage)
    (hopen : ∀ c ∈ audience h m, (h.mem c).send.closed = false) :
    handleBroadcast h m =
      some { h with mem := fun p => if p ∈ audience h m then enqueue (h.mem p) m else h.mem p } := by
  unfold handleBroadcast
  unfold audience at hopen ⊢
  cases hc : m.ChannelID with
  | some channelID =>
    simp only [hc] at hopen ⊢
    rw [sendAll_spec m _ h.mem hopen]
    rfl
  | none =>
    cases hw : m.WorkspaceID with
    | some workspaceID =>
      simp only [hc, hw] at hopen ⊢
      rw [sendAll_spec m _ h.mem hopen]
      rfl
    | none =>
      cases hu : m.UserID with
      | some userID =>
        simp only [hc, hw, hu] at hopen ⊢
        rw [sendUser_spec m userID h.clients h.mem]
        · simp only [Option.map_some', registered, List.mem_filter, decide_eq_true_eq]
        · intro c hc1 hc2
          exact hopen c (List.mem_filter.2 ⟨hc1, by simpa using hc2⟩)
      | none =>
        simp only [hc, hw, hu] at hopen ⊢
        rw [sendAll_spec m _ h.mem hopen]
        rfl

/-! ## Membership under the hub operations -/

theorem index_congr (rooms rooms1 : GoMap String (GoMap ClientPtr Bool)) (k : String)
    (h : rooms1.get? k = rooms.get? k) : rooms1.index k = rooms.index k := by
  unfold GoMap.index; rw [h]

theorem mem_registered_register (h : Hub) (c d : ClientPtr) :
    d ∈ registered (register h c) ↔ d = c ∨ d ∈ registered h :=
  GoMap.mem_keys_set h.clients c d true

theorem contains_iff_mem_registered (h : Hub) (c : ClientPtr) :
    h.clients.contains c = true ↔ c ∈ registered h := by
  unfold GoMap.contains registered
  rw [GoMap.mem_keys_iff]
  cases h.clients.get? c <;> simp

theorem mem_members_JoinRoom (h : Hub) (roomType : String) (id : UUID) (c d : ClientPtr)
    (k : String) :
    d ∈ members (JoinRoom h roomType id c) k ↔
      (k = roomType ++ ":" ++ id.String ∧ d = c) ∨ d ∈ members h k := by
  unfold members
  by_cases hk : k = roomType ++ ":" ++ id.String
  · have hg := get?_rooms_JoinRoom h roomType id c k
    rw [if_pos hk] at hg
    rw [GoMap.index_eq_of_get? _ k _ hg, GoMap.mem_keys_set, ← hk]
    simp
  · have hg := get?_rooms_JoinRoom h roomType id c k
    rw [if_neg hk] at hg
    rw [index_congr _ _ k hg]
    simp [hk]

theorem members_LeaveRoom (h : Hub) (roomType : String) (id : UUID) (c : ClientPtr)
    (k : String) :
    members (LeaveRoom h roomType id c) k =
      if k = roomType ++ ":" ++ id.String then
        (members h k).filter (fun a => decide (a ≠ c))
      else members h k := by
  unfold members
  have hg := get?_rooms_LeaveRoom h roomType id c k
  by_cases hk : k = roomType ++ ":" ++ id.String
  · rw [if_pos hk] at hg ⊢
    exact keys_index_of_pruned c h.rooms _ k hg
  · rw [if_neg hk] at hg ⊢
    rw [index_congr _ _ k hg]

theorem unregister_eq (h : Hub) (c : ClientPtr) (hreg : c ∈ registered h)
    (hopen : (h.mem c).send.closed = false) :
    unregister h c =
      some { clients := h.clients.delete c
             rooms := h.rooms.keys.foldl (unregisterRoom c) h.rooms
             mem := Function.update h.mem c
               { h.mem c with send := { (h.mem c).send with closed := true } } } := by
  unfold unregister closeChan
  rw [if_pos ((contains_iff_mem_registered h c).2 hreg)]
  simp [hopen]

theorem unregister_absent (h : Hub) (c : ClientPtr) (hreg : c ∉ registered h) :
    unregister h c = some h := by
  unfold unregister
  have : ¬ h.clients.contains c = true := fun hh => hreg ((contains_iff_mem_registered h c).1 hh)
  rw [if_neg this]

theorem unregister_cases (h h1 : Hub) (c : ClientPtr) (hu : unregister h c = some h1) :
    h1 = h ∨ (c ∈ registered h ∧ (h.mem c).send.closed = false ∧
      h1.clients = h.clients.delete c ∧
      h1.rooms = h.rooms.keys.foldl (unregisterRoom c) h.rooms ∧
      (∀ d, d ≠ c → h1.mem d = h.mem d)) := by
  by_cases hreg : c ∈ registered h
  · by_cases hopen : (h.mem c).send.closed = false
    · rw [unregister_eq h c hreg hopen] at hu
      have := Option.some.inj hu
      subst this
      exact Or.inr ⟨hreg, hopen, rfl, rfl, fun d hd => Function.update_noteq hd _ _⟩
    · exfalso
      unfold unregister closeChan at hu
      rw [if_pos ((contains_iff_mem_registered h c).2 hreg)] at hu
      simp [hopen] at hu
  · rw [unregister_absent h c hreg] at hu
    exact Or.inl (Option.some.inj hu).symm

theorem members_of_unregistered (h h1 : Hub) (c : ClientPtr)
    (hr : h1.rooms = h.rooms.keys.foldl (unregisterRoom c) h.rooms) (k : String) :
    members h1 k = (members h k).filter (fun a => decide (a ≠ c)) := by
  unfold members
  apply keys_index_of_pruned c h.rooms h1.rooms k
  rw [hr]
  exact get?_unregister_rooms c h.rooms k

theorem handleBroadcast_maps (h h1 : Hub) (m : WSMessage) (hb : handleBroadcast h m = some h1) :
    h1.clients = h.clients ∧ h1.rooms = h.rooms := by
  unfold handleBroadcast at hb
  have aux : ∀ o : Option (ClientPtr → Client),
      o.map (fun mem => ({ h with mem := mem } : Hub)) = some h1 →
        h1.clients = h.clients ∧ h1.rooms = h.rooms := by
    intro o ho
    cases o with
    | none => simp at ho
    | some mem =>
      have := Option.some.inj ho
      subst this
      exact ⟨rfl, rfl⟩
  cases hc : m.ChannelID with
  | some channelID => rw [hc] at hb; exact aux _ hb
  | none =>
    cases hw : m.WorkspaceID with
    | some workspaceID => rw [hc, hw] at hb; exact aux _ hb
    | none =>
      cases hu : m.UserID with
      | some userID => rw [hc, hw, hu] at hb; exact aux _ hb
      | none => rw [hc, hw, hu] at hb; exact aux _ hb

/-! ## Unregister of a registered handle -/

theorem unregister_spec (h : Hub) (c : ClientPtr) (hreg : c ∈ registered h)
    (hopen : (h.mem c).send.closed = false) :
    ∃ h1, unregister h c = some h1 ∧ c ∉ registered h1 ∧ (h1.mem c).send.closed = true ∧
      (∀ k, c ∉ members h1 k) ∧
      (∀ k d, d ≠ c → (d ∈ members h1 k ↔ d ∈ members h k)) := by
  refine ⟨_, unregister_eq h c hreg hopen, ?_, ?_, ?_, ?_⟩
  · intro hc
    exact ((GoMap.mem_keys_delete h.clients c c).1 hc).1 rfl
  · simp [Function.update_same]
  · intro k hc
    rw [members_of_unregistered h _ c rfl k, List.mem_filter] at hc
    simp at hc
  · intro k d hd
    rw [members_of_unregistered h _ c rfl k, List.mem_filter]
    simp [hd]

/-- C1, amended: for every hub state and every handle `c` whose outbound queue
is still open, if `c` is in the Registry then serving Unregister(c) completes
in a state where `c` is not in the Registry, its queue is closed, it is a
member of no room, and every other handle is a member of exactly the rooms it
was a member of; and Register(c) followed by Unregister(c) completes with `c`
in no room. -/
theorem unregister_registered (h : Hub) (c : ClientPtr)
    (hopen : (h.mem c).send.closed = false) :
    (c ∈ registered h →
      ∃ h1, unregister h c = some h1 ∧ c ∉ registered h1 ∧ (h1.mem c).send.closed = true ∧
        (∀ k, c ∉ members h1 k) ∧
        (∀ k d, d ≠ c → (d ∈ members h1 k ↔ d ∈ members h k))) ∧
    (∃ h2, unregister (register h c) c = some h2 ∧ ∀ k, c ∉ members h2 k) := by
  refine ⟨fun hreg => unregister_spec h c hreg hopen, ?_⟩
  obtain ⟨h2, hu, _, _, hm, _⟩ := unregister_spec (register h c) c
    ((mem_registered_register h c c).2 (Or.inl rfl)) hopen
  exact ⟨h2, hu, hm⟩

/-- Witness for C1: client 3 of the sample hub is registered, open, and in two
rooms. -/
theorem unregister_registered_witness :
    (hubTwo.mem 3).send.closed = false ∧ 3 ∈ registered hubTwo ∧
    3 ∈ members hubTwo ("channel" ++ ":" ++ idA.String) ∧
    ((3 ∈ registered hubTwo →
      ∃ h1, unregister hubTwo 3 = some h1 ∧ 3 ∉ registered h1 ∧
        (h1.mem 3).send.closed = true ∧
        (∀ k, 3 ∉ members h1 k) ∧
        (∀ k d, d ≠ 3 → (d ∈ members h1 k ↔ d ∈ members hubTwo k))) ∧
    (∃ h2, unregister (register hubTwo 3) 3 = some h2 ∧ ∀ k, 3 ∉ members h2 k)) :=
  ⟨by decide, by decide, by decide, unregister_registered hubTwo 3 (by decide)⟩

/-- C1 as stated fails: after Register(3), Unregister(3), Register(3) the handle
is in the Registry, and serving Unregister(3) panics on the second `close` of
its queue instead of yielding a state. -/
theorem unregister_registered_counterexample :
    ∃ h ∈ run (NewHub memOpen) [.register 3, .unregister 3, .register 3],
      3 ∈ registered h ∧ unregister h 3 = none := by
  decide

/-! ## Invariants of the reachable states -/

theorem step_members_subset_registered (h h1 : Hub) (op : Op)
    (hinv : ∀ k c, c ∈ members h k → c ∈ registered h)
    (hs : step h op = some h1)
    (hj : ∀ roomType id client, op = .join roomType id client → client ∈ registered h) :
    ∀ k c, c ∈ members h1 k → c ∈ registered h1 := by
  cases op with
  | register client =>
    have := Option.some.inj hs
    subst this
    intro k c hc
    exact (mem_registered_register h client c).2 (Or.inr (hinv k c hc))
  | unregister client =>
    rcases unregister_cases h h1 client hs with he | ⟨_, _, hcl, hrooms, _⟩
    · subst he; exact hinv
    · intro k c hc
      rw [members_of_unregistered h h1 client hrooms k, List.mem_filter] at hc
      have hne : c ≠ client := by simpa using hc.2
      show c ∈ h1.clients.keys
      rw [hcl, GoMap.mem_keys_delete]
      exact ⟨hne, hinv k c hc.1⟩
  | join roomType id client =>
    have := Option.some.inj hs
    subst this
    intro k c hc
    rcases (mem_members_JoinRoom h roomType id client c k).1 hc with ⟨_, hcc⟩ | hm
    · subst hcc; exact hj roomType id c rfl
    · exact hinv k c hm
  | leave roomType id client =>
    have := Option.some.inj hs
    subst this
    intro k c hc
    rw [members_LeaveRoom] at hc
    have hreg : registered (LeaveRoom h roomType id client) = registered h := by
      unfold LeaveRoom registered
      simp only
      split_ifs <;> rfl
    rw [hreg]
    by_cases hk : k = roomType ++ ":" ++ id.String
    · rw [if_pos hk] at hc
      exact hinv k c (List.mem_filter.1 hc).1
    · rw [if_neg hk] at hc
      exact hinv k c hc
  | broadcast message =>
    obtain ⟨hcl, hrooms⟩ := handleBroadcast_maps h h1 message hs
    intro k c hc
    unfold members at hc
    unfold registered
    rw [hrooms] at hc
    rw [hcl]
    exact hinv k c hc

theorem run_members_subset_registered (ops : List Op) (h h1 : Hub)
    (hinv : ∀ k c, c ∈ members h k → c ∈ registered h)
    (hr : run h ops = some h1) (hj : joinsRegistered h ops = true) :
    ∀ k c, c ∈ members h1 k → c ∈ registered h1 := by
  induction ops generalizing h with
  | nil =>
    have := Option.some.inj hr
    subst this
    exact hinv
  | cons op ops ih =>
    unfold run at hr
    unfold joinsRegistered at hj
    cases hs : step h op with
    | none => rw [hs] at hr; simp at hr
    | some h2 =>
      rw [hs] at hr hj
      simp only [Option.some_bind] at hr
      rw [Bool.and_eq_true] at hj
      refine ih h2 (step_members_subset_registered h h2 op hinv hs ?_) hr hj.2
      intro roomType id client hop
      subst hop
      exact (contains_iff_mem_registered h client).1 hj.1

/-- C2, amended: in every hub state reached from NewHub() by a finite sequence
of Register, Unregister, JoinRoom, LeaveRoom and Broadcast requests in which
every JoinRoom is called for a handle that is in the Registry at that moment,
every member of every room is in the Registry. -/
theorem rooms_within_registry (mem : ClientPtr → Client) (ops : List Op) (h : Hub)
    (hr : run (NewHub mem) ops = some h) (hj : joinsRegistered (NewHub mem) ops = true) :
    ∀ k c, c ∈ members h k → c ∈ registered h := by
  refine run_members_subset_registered ops (NewHub mem) h ?_ hr hj
  intro k c hc
  simp [members, NewHub, GoMap.index, GoMap.get?, GoMap.empty, lookupL, GoMap.keys] at hc

/-- Witness for C2: a sequence that registers before joining and unregisters a
member; it completes, and client 4 is still in its room at the end. -/
theorem rooms_within_registry_witness :
    joinsRegistered (NewHub memOpen) opsOrderly = true ∧
    (∃ h ∈ run (NewHub memOpen) opsOrderly,
      4 ∈ members h ("channel" ++ ":" ++ idA.String)) ∧
    ∀ h, run (NewHub memOpen) opsOrderly = some h →
      ∀ k c, c ∈ members h k → c ∈ registered h :=
  ⟨by decide, by decide,
    fun h hr => rooms_within_registry memOpen opsOrderly h hr (by decide)⟩

/-- C2 as stated fails: JoinRoom alone, from NewHub(), puts the unregistered
handle 3 into a room. -/
theorem rooms_within_registry_counterexample :
    ∃ h ∈ run (NewHub memOpen) [.join "channel" idA 3],
      3 ∈ members h ("channel" ++ ":" ++ idA.String) ∧ 3 ∉ registered h := by
  decide

theorem pruned_some_len (c : ClientPtr) (o : Option (GoMap ClientPtr Bool))
    (room : GoMap ClientPtr Bool) (h : pruned c o = some room) : room.len ≠ 0 := by
  cases o with
  | none => simp [pruned] at h
  | some s =>
    simp only [pruned] at h
    by_cases hl : (s.delete c).len = 0
    · rw [if_pos hl] at h; simp at h
    · rw [if_neg hl] at h
      have := Option.some.inj h
      subst this
      exact hl

theorem step_rooms_nonempty (h h1 : Hub) (op : Op)
    (hinv : ∀ k room, h.rooms.get? k = some room → room.len ≠ 0)
    (hs : step h op = some h1) :
    ∀ k room, h1.rooms.get? k = some room → room.len ≠ 0 := by
  cases op with
  | register client =>
    have := Option.some.inj hs
    subst this
    exact hinv
  | unregister client =>
    rcases unregister_cases h h1 client hs with he | ⟨_, _, _, hrooms, _⟩
    · subst he; exact hinv
    · intro k room hg
      rw [hrooms, get?_unregister_rooms] at hg
      exact pruned_some_len client _ room hg
  | join roomType id client =>
    have := Option.some.inj hs
    subst this
    intro k room hg
    rw [get?_rooms_JoinRoom] at hg
    by_cases hk : k = roomType ++ ":" ++ id.String
    · rw [if_pos hk] at hg
      have := Option.some.inj hg
      subst this
      intro hl
      have hkeys := (GoMap.len_eq_zero_iff _).1 hl
      have hmem : client ∈ ((h.rooms.index (roomType ++ ":" ++ id.String)).set client true).keys :=
        (GoMap.mem_keys_set _ client client true).2 (Or.inl rfl)
      rw [hkeys] at hmem
      simp at hmem
    · rw [if_neg hk] at hg
      exact hinv k room hg
  | leave roomType id client =>
    have := Option.some.inj hs
    subst this
    intro k room hg
    rw [get?_rooms_LeaveRoom] at hg
    by_cases hk : k = roomType ++ ":" ++ id.String
    · rw [if_pos hk] at hg
      exact pruned_some_len client _ room hg
    · rw [if_neg hk] at hg
      exact hinv k room hg
  | broadcast message =>
    obtain ⟨_, hrooms⟩ := handleBroadcast_maps h h1 message hs
    rw [hrooms]
    exact hinv

theorem run_rooms_nonempty (ops : List Op) (h h1 : Hub)
    (hinv : ∀ k room, h.rooms.get? k = some room → room.len ≠ 0)
    (hr : run h ops = some h1) :
    ∀ k room, h1.rooms.get? k = some room → room.len ≠ 0 := by
  induction ops generalizing h with
  | nil =>
    have := Option.some.inj hr
    subst this
    exact hinv
  | cons op ops ih =>
    unfold run at hr
    cases hs : step h op with
    | none => rw [hs] at hr; simp at hr
    | some h2 =>
      rw [hs] at hr
      exact ih h2 (step_rooms_nonempty h h2 op hinv hs) hr

/-- C3: in every hub state reached from NewHub() by a finite sequence of
Register, Unregister, JoinRoom, LeaveRoom and Broadcast requests, no room key
maps to an empty member set, and a key is present in the Room Index iff its
room has at least one member. -/
theorem no_empty_room (mem : ClientPtr → Client) (ops : List Op) (h : Hub)
    (hr : run (NewHub mem) ops = some h) :
    (∀ k room, h.rooms.get? k = some room → room.len ≠ 0) ∧
    (∀ k, k ∈ h.rooms.keys ↔ members h k ≠ []) := by
  have hinv := run_rooms_nonempty ops (NewHub mem) h (by
    intro k room hg
    simp [NewHub, GoMap.get?, GoMap.empty, lookupL] at hg) hr
  refine ⟨hinv, fun k => ⟨?_, ?_⟩⟩
  · intro hk
    obtain ⟨room, hg⟩ := (GoMap.mem_keys_iff h.rooms k).1 hk
    unfold members
    rw [GoMap.index_eq_of_get? h.rooms k room hg]
    intro he
    exact hinv k room hg ((GoMap.len_eq_zero_iff room).2 he)
  · intro hm
    by_contra hk
    exact hm (GoMap.index_keys_of_none h.rooms k ((GoMap.get?_eq_none_iff h.rooms k).2 hk))

/-- Witness for C3: the last member of a channel leaves and the only member of
a workspace unregisters; the run completes and one room remains. -/
theorem no_empty_room_witness :
    (∃ h ∈ run (NewHub memOpen) opsChurn,
      h.rooms.keys = ["workspace" ++ ":" ++ idA.String]) ∧
    ∀ h, run (NewHub memOpen) opsChurn = some h →
      (∀ k room, h.rooms.get? k = some room → room.len ≠ 0) ∧
      (∀ k, k ∈ h.rooms.keys ↔ members h k ≠ []) :=
  ⟨by decide, fun h hr => no_empty_room memOpen opsChurn h hr⟩

/-! ## Audience of a broadcast -/

theorem enqueue_of_spare (cl : Client) (m : WSMessage) (h : cl.send.buf.length < cl.send.cap) :
    enqueue cl m = { cl with send := { cl.send with buf := cl.send.buf ++ [m] } } := by
  unfold enqueue; rw [if_pos h]

theorem enqueue_of_full (cl : Client) (m : WSMessage) (h : ¬ cl.send.buf.length < cl.send.cap) :
    enqueue cl m = cl := by
  unfold enqueue; rw [if_neg h]

theorem enqueue_userID (cl : Client) (m : WSMessage) : (enqueue cl m).userID = cl.userID := by
  unfold enqueue; split_ifs <;> rfl

theorem enqueue_closed (cl : Client) (m : WSMessage) :
    (enqueue cl m).send.closed = cl.send.closed := by
  unfold enqueue; split_ifs <;> rfl

theorem audience_room (h : Hub) (m : WSMessage) (roomType : String) (X : UUID)
    (hscope : (roomType = "channel" ∧ m.ChannelID = some X) ∨
      (roomType = "workspace" ∧ m.ChannelID = none ∧ m.WorkspaceID = some X)) :
    audience h m = members h (roomType ++ ":" ++ X.String) := by
  unfold audience
  rcases hscope with ⟨ht, hc⟩ | ⟨ht, hc, hw⟩
  · rw [hc, ht]; rfl
  · rw [hc, hw, ht]; rfl

theorem audience_user (h : Hub) (m : WSMessage) (U : UUID)
    (hc : m.ChannelID = none) (hw : m.WorkspaceID = none) (hu : m.UserID = some U) (p : ClientPtr) :
    p ∈ audience h m ↔ p ∈ registered h ∧ (h.mem p).userID = U := by
  unfold audience
  rw [hc, hw, hu]
  simp [List.mem_filter]

theorem audience_global (h : Hub) (m : WSMessage)
    (hc : m.ChannelID = none) (hw : m.WorkspaceID = none) (hu : m.UserID = none) :
    audience h m = registered h := by
  unfold audience
  rw [hc, hw, hu]

theorem audience_congr (h h1 : Hub) (m : WSMessage) (hcl : h1.clients = h.clients)
    (hrooms : h1.rooms = h.rooms) (hid : ∀ c, (h1.mem c).userID = (h.mem c).userID) :
    audience h1 m = audience h m := by
  unfold audience members registered
  rw [hcl, hrooms]
  cases m.ChannelID with
  | some channelID => rfl
  | none =>
    cases m.WorkspaceID with
    | some workspaceID => rfl
    | none =>
      cases m.UserID with
      | some userID =>
        simp only
        apply List.filter_congr
        intro c _
        rw [hid c]
      | none => rfl

theorem mem_audience_live (h : Hub) (m : WSMessage) (c : ClientPtr) (hc : c ∈ audience h m) :
    c ∈ registered h ∨ ∃ k, c ∈ members h k := by
  unfold audience at hc
  cases hch : m.ChannelID with
  | some channelID => rw [hch] at hc; exact Or.inr ⟨_, hc⟩
  | none =>
    cases hw : m.WorkspaceID with
    | some workspaceID => rw [hch, hw] at hc; exact Or.inr ⟨_, hc⟩
    | none =>
      cases hu : m.UserID with
      | some userID =>
        rw [hch, hw, hu] at hc
        exact Or.inl (List.mem_filter.1 hc).1
      | none => rw [hch, hw, hu] at hc; exact Or.inl hc

/-- The effect of a broadcast whose audience has no closed queue, handle by
handle. -/
theorem handleBroadcast_pointwise (h : Hub) (m : WSMessage)
    (hopen : ∀ c ∈ audience h m, (h.mem c).send.closed = false) :
    ∃ h1, handleBroadcast h m = some h1 ∧ h1.clients = h.clients ∧ h1.rooms = h.rooms ∧
      (∀ p, p ∈ audience h m → (h.mem p).send.buf.length < (h.mem p).send.cap →
        h1.mem p =
          { h.mem p with send := { (h.mem p).send with buf := (h.mem p).send.buf ++ [m] } }) ∧
      (∀ p, ¬ (p ∈ audience h m ∧ (h.mem p).send.buf.length < (h.mem p).send.cap) →
        h1.mem p = h.mem p) := by
  refine ⟨_, handleBroadcast_spec h m hopen, rfl, rfl, ?_, ?_⟩
  · intro p hp hs
    show (if p ∈ audience h m then enqueue (h.mem p) m else h.mem p) = _
    rw [if_pos hp, enqueue_of_spare _ _ hs]
  · intro p hn
    show (if p ∈ audience h m then enqueue (h.mem p) m else h.mem p) = _
    by_cases hp : p ∈ audience h m
    · rw [if_pos hp, enqueue_of_full]
      exact fun hs => hn ⟨hp, hs⟩
    · rw [if_neg hp]

theorem handleBroadcast_empty (h : Hub) (m : WSMessage) (he : audience h m = []) :
    handleBroadcast h m = some h := by
  rw [handleBroadcast_spec h m (by rw [he]; intro c hc; simp at hc)]
  simp [he]

/-! ## Room-scoped broadcasts -/

/-- C4, amended: for every hub state and every envelope addressed to channel
`X` (respectively, with no channel set, to workspace `X`), provided no member
of the room `(channel, X)` (respectively `(workspace, X)`) has a closed queue,
`handleBroadcast` completes, appends the envelope to the queue of exactly the
members of that room with spare capacity and leaves every other handle as it
was; a member with spare capacity sees its queue change while a non-member
does not, and a broadcast to a key absent from the index changes nothing. -/
theorem room_broadcast (h : Hub) (m : WSMessage) (roomType : String) (X : UUID)
    (hscope : (roomType = "channel" ∧ m.ChannelID = some X) ∨
      (roomType = "workspace" ∧ m.ChannelID = none ∧ m.WorkspaceID = some X))
    (hopen : ∀ c ∈ members h (roomType ++ ":" ++ X.String), (h.mem c).send.closed = false) :
    ∃ h1, handleBroadcast h m = some h1 ∧ h1.clients = h.clients ∧ h1.rooms = h.rooms ∧
      (∀ p, p ∈ members h (roomType ++ ":" ++ X.String) →
        (h.mem p).send.buf.length < (h.mem p).send.cap →
        h1.mem p =
          { h.mem p with send := { (h.mem p).send with buf := (h.mem p).send.buf ++ [m] } }) ∧
      (∀ p, ¬ (p ∈ members h (roomType ++ ":" ++ X.String) ∧
          (h.mem p).send.buf.length < (h.mem p).send.cap) →
        h1.mem p = h.mem p) ∧
      (∀ A B, A ∈ members h (roomType ++ ":" ++ X.String) →
        (h.mem A).send.buf.length < (h.mem A).send.cap →
        B ∉ members h (roomType ++ ":" ++ X.String) →
        (h1.mem A).send.buf ≠ (h.mem A).send.buf ∧ (h1.mem B).send = (h.mem B).send) ∧
      (h.rooms.get? (roomType ++ ":" ++ X.String) = none → h1 = h) := by
  have haud := audience_room h m roomType X hscope
  rw [← haud] at hopen ⊢
  obtain ⟨h1, hb, hcl, hrooms, hin, hout⟩ := handleBroadcast_pointwise h m hopen
  refine ⟨h1, hb, hcl, hrooms, hin, hout, ?_, ?_⟩
  · intro A B hA hs hB
    constructor
    · rw [hin A hA hs]
      intro he
      have := congrArg List.length he
      simp at this
    · rw [hout B (fun hh => hB hh.1)]
  · intro hnone
    have he : audience h m = [] := by
      rw [haud]; exact GoMap.index_keys_of_none h.rooms _ hnone
    rw [handleBroadcast_empty h m he] at hb
    exact (Option.some.inj hb).symm

/-- Witness for C4: client 3 is in channel `idA` only, client 4 in channel
`idB` only; an envelope for channel `idA` reaches 3 and not 4. -/
theorem room_broadcast_witness :
    ((("channel" : String) = "channel" ∧ msgA.ChannelID = some idA) ∨
      (("channel" : String) = "workspace" ∧ msgA.ChannelID = none ∧
        msgA.WorkspaceID = some idA)) ∧
    (∀ c ∈ members hubApart ("channel" ++ ":" ++ idA.String),
      (hubApart.mem c).send.closed = false) ∧
    members hubApart ("channel" ++ ":" ++ idA.String) = [3] ∧
    members hubApart ("channel" ++ ":" ++ idB.String) = [4] ∧
    ∃ h1, handleBroadcast hubApart msgA = some h1 ∧ h1.clients = hubApart.clients ∧
      h1.rooms = hubApart.rooms ∧
      (∀ p, p ∈ members hubApart ("channel" ++ ":" ++ idA.String) →
        (hubApart.mem p).send.buf.length < (hubApart.mem p).send.cap →
        h1.mem p =
          { hubApart.mem p with
            send := { (hubApart.mem p).send with buf := (hubApart.mem p).send.buf ++ [msgA] } }) ∧
      (∀ p, ¬ (p ∈ members hubApart ("channel" ++ ":" ++ idA.String) ∧
          (hubApart.mem p).send.buf.length < (hubApart.mem p).send.cap) →
        h1.mem p = hubApart.mem p) ∧
      (∀ A B, A ∈ members hubApart ("channel" ++ ":" ++ idA.String) →
        (hubApart.mem A).send.buf.length < (hubApart.mem A).send.cap →
        B ∉ members hubApart ("channel" ++ ":" ++ idA.String) →
        (h1.mem A).send.buf ≠ (hubApart.mem A).send.buf ∧
          (h1.mem B).send = (hubApart.mem B).send) ∧
      (hubApart.rooms.get? ("channel" ++ ":" ++ idA.String) = none → h1 = hubApart) :=
  ⟨by decide, by decide, by decide, by decide,
    room_broadcast hubApart msgA "channel" idA (by decide) (by decide)⟩

/-- C4 as stated fails: after Register(3), Unregister(3), JoinRoom(channel,
idA, 3) the only member of the room has a closed queue, and an envelope for
that channel makes `handleBroadcast` panic instead of leaving queues alone. -/
theorem room_broadcast_counterexample :
    msgA.ChannelID = some idA ∧ msgA.WorkspaceID = none ∧ msgA.UserID = none ∧
    ∃ h ∈ run (NewHub memOpen) [.register 3, .unregister 3, .join "channel" idA 3],
      members h ("channel" ++ ":" ++ idA.String) = [3] ∧ handleBroadcast h msgA = none := by
  decide

/-! ## User-scoped and global broadcasts -/

/-- C5, amended: for every hub state and every envelope with no channel and no
workspace set: if its user id is `U` and no registered handle of user `U` has a
closed queue, `handleBroadcast` completes and appends the envelope to the queue
of exactly the registered handles whose userID is `U` and that have spare
capacity, whatever rooms they are in; if no user id is set and no registered
handle has a closed queue, it completes and appends the envelope to the queue
of exactly the registered handles with spare capacity; in both cases every
other handle, in particular every handle not in the Registry, is unchanged. -/
theorem direct_broadcast (h : Hub) (m : WSMessage)
    (hc : m.ChannelID = none) (hw : m.WorkspaceID = none) :
    (∀ U, m.UserID = some U →
      (∀ c ∈ registered h, (h.mem c).userID = U → (h.mem c).send.closed = false) →
      ∃ h1, handleBroadcast h m = some h1 ∧ h1.clients = h.clients ∧ h1.rooms = h.rooms ∧
        (∀ p, p ∈ registered h → (h.mem p).userID = U →
          (h.mem p).send.buf.length < (h.mem p).send.cap →
          h1.mem p =
            { h.mem p with send := { (h.mem p).send with buf := (h.mem p).send.buf ++ [m] } }) ∧
        (∀ p, ¬ (p ∈ registered h ∧ (h.mem p).userID = U ∧
            (h.mem p).send.buf.length < (h.mem p).send.cap) → h1.mem p = h.mem p) ∧
        (∀ p, p ∉ registered h → h1.mem p = h.mem p)) ∧
    (m.UserID = none →
      (∀ c ∈ registered h, (h.mem c).send.closed = false) →
      ∃ h1, handleBroadcast h m = some h1 ∧ h1.clients = h.clients ∧ h1.rooms = h.rooms ∧
        (∀ p, p ∈ registered h → (h.mem p).send.buf.length < (h.mem p).send.cap →
          h1.mem p =
            { h.mem p with send := { (h.mem p).send with buf := (h.mem p).send.buf ++ [m] } }) ∧
        (∀ p, ¬ (p ∈ registered h ∧ (h.mem p).send.buf.length < (h.mem p).send.cap) →
          h1.mem p = h.mem p) ∧
        (∀ p, p ∉ registered h → h1.mem p = h.mem p)) := by
  constructor
  · intro U hu hopen
    have haud := audience_user h m U hc hw hu
    obtain ⟨h1, hb, hcl, hrooms, hin, hout⟩ := handleBroadcast_pointwise h m
      (fun c hcm => hopen c ((haud c).1 hcm).1 ((haud c).1 hcm).2)
    refine ⟨h1, hb, hcl, hrooms, ?_, ?_, ?_⟩
    · intro p hp hU hs
      exact hin p ((haud p).2 ⟨hp, hU⟩) hs
    · intro p hn
      exact hout p (fun hh => hn ⟨((haud p).1 hh.1).1, ((haud p).1 hh.1).2, hh.2⟩)
    · intro p hp
      exact hout p (fun hh => hp ((haud p).1 hh.1).1)
  · intro hu hopen
    have haud := audience_global h m hc hw hu
    rw [← haud] at hopen ⊢
    obtain ⟨h1, hb, hcl, hrooms, hin, hout⟩ := handleBroadcast_pointwise h m hopen
    exact ⟨h1, hb, hcl, hrooms, hin, hout, fun p hp => hout p (fun hh => hp hh.1)⟩

/-- Witness for C5: in the sample hub clients 3 and 4 are two sessions of user
`idA`; a user envelope and a global envelope both reach the two of them. -/
theorem direct_broadcast_witness :
    (msgUser.ChannelID = none ∧ msgUser.WorkspaceID = none ∧ msgUser.UserID = some idA) ∧
    (msgGlobal.ChannelID = none ∧ msgGlobal.WorkspaceID = none ∧ msgGlobal.UserID = none) ∧
    registered hubApart = [3, 4] ∧
    (∀ c ∈ registered hubApart, (hubApart.mem c).userID = idA ∧
      (hubApart.mem c).send.closed = false ∧
      (hubApart.mem c).send.buf.length < (hubApart.mem c).send.cap) ∧
    (∃ h1, handleBroadcast hubApart msgUser = some h1 ∧
      (∀ p, p ∈ registered hubApart → (hubApart.mem p).userID = idA →
        (hubApart.mem p).send.buf.length < (hubApart.mem p).send.cap →
        h1.mem p =
          { hubApart.mem p with
            send := { (hubApart.mem p).send with
                      buf := (hubApart.mem p).send.buf ++ [msgUser] } }) ∧
      (∀ p, p ∉ registered hubApart → h1.mem p = hubApart.mem p)) ∧
    (∃ h1, handleBroadcast hubApart msgGlobal = some h1 ∧
      (∀ p, p ∈ registered hubApart →
        (hubApart.mem p).send.buf.length < (hubApart.mem p).send.cap →
        h1.mem p =
          { hubApart.mem p with
            send := { (hubApart.mem p).send with
                      buf := (hubApart.mem p).send.buf ++ [msgGlobal] } }) ∧
      (∀ p, p ∉ registered hubApart → h1.mem p = hubApart.mem p)) :=
  ⟨by decide, by decide, by decide, by decide,
    (((direct_broadcast hubApart msgUser (by decide) (by decide)).1 idA (by decide)
      (by decide)).imp fun _ hh => ⟨hh.1, hh.2.2.2.1, hh.2.2.2.2.2⟩),
    (((direct_broadcast hubApart msgGlobal (by decide) (by decide)).2 (by decide)
      (by decide)).imp fun _ hh => ⟨hh.1, hh.2.2.2.1, hh.2.2.2.2.2⟩)⟩

/-- C5 as stated fails: after Register(3), Unregister(3), Register(3) the
Registry holds a handle of user `idA` whose queue is closed, and both a user
envelope for `idA` and a global envelope make `handleBroadcast` panic. -/
theorem direct_broadcast_counterexample :
    (msgUser.ChannelID = none ∧ msgUser.WorkspaceID = none ∧ msgUser.UserID = some idA) ∧
    (msgGlobal.ChannelID = none ∧ msgGlobal.WorkspaceID = none ∧ msgGlobal.UserID = none) ∧
    ∃ h ∈ run (NewHub memOpen) [.register 3, .unregister 3, .register 3],
      registered h = [3] ∧ (h.mem 3).userID = idA ∧
      handleBroadcast h msgUser = none ∧ handleBroadcast h msgGlobal = none := by
  decide

/-! ## Delivery policy -/

/-- C6, amended: for every Broadcast whose resolved audience has no closed
queue, and every handle `r` in that audience: the broadcast completes; if `r`
has spare capacity the envelope is appended at the tail of its queue, the
earlier contents in place; if `r` is full it is left exactly as it was; every
other handle ends up the same whatever the contents of `r`'s queue; and a
second broadcast that also resolves to `r` puts its envelope behind the first
when there is room for both. -/
theorem delivery_policy (h : Hub) (m : WSMessage) (r : ClientPtr)
    (hr : r ∈ audience h m)
    (hopen : ∀ c ∈ audience h m, (h.mem c).send.closed = false) :
    ∃ h1, handleBroadcast h m = some h1 ∧
      ((h.mem r).send.buf.length < (h.mem r).send.cap →
        (h1.mem r).send.buf = (h.mem r).send.buf ++ [m]) ∧
      (¬ (h.mem r).send.buf.length < (h.mem r).send.cap → h1.mem r = h.mem r) ∧
      (∀ buf2, ∃ h2,
        handleBroadcast (withQueue h r buf2) m = some h2 ∧
        ∀ q, q ≠ r → h2.mem q = h1.mem q) ∧
      (∀ m2, r ∈ audience h m2 → (∀ c ∈ audience h m2, (h.mem c).send.closed = false) →
        ∃ h3, handleBroadcast h1 m2 = some h3 ∧
          ((h.mem r).send.buf.length + 2 ≤ (h.mem r).send.cap →
            (h3.mem r).send.buf = (h.mem r).send.buf ++ [m, m2])) := by
  refine ⟨_, handleBroadcast_spec h m hopen, ?_, ?_, ?_, ?_⟩
  · intro hs
    show (if r ∈ audience h m then enqueue (h.mem r) m else h.mem r).send.buf = _
    rw [if_pos hr, enqueue_of_spare _ _ hs]
  · intro hs
    show (if r ∈ audience h m then enqueue (h.mem r) m else h.mem r) = _
    rw [if_pos hr, enqueue_of_full _ _ hs]
  · intro buf2
    have haud : audience (withQueue h r buf2) m = audience h m := by
      refine audience_congr h (withQueue h r buf2) m rfl rfl ?_
      intro c
      by_cases hcr : c = r
      · subst hcr; simp [withQueue, Function.update_same]
      · simp [withQueue, Function.update_noteq hcr]
    refine ⟨_, handleBroadcast_spec _ m ?_, ?_⟩
    · rw [haud]
      intro c hc
      by_cases hcr : c = r
      · subst hcr
        simpa [withQueue, Function.update_same] using hopen c hc
      · simpa [withQueue, Function.update_noteq hcr] using hopen c hc
    · intro q hq
      have hq2 : (withQueue h r buf2).mem q = h.mem q := by
        simp [withQueue, Function.update_noteq hq]
      show (if q ∈ audience (withQueue h r buf2) m then enqueue ((withQueue h r buf2).mem q) m
        else (withQueue h r buf2).mem q) =
          (if q ∈ audience h m then enqueue (h.mem q) m else h.mem q)
      rw [haud, hq2]
  · intro m2 hr2 hopen2
    have haud : audience
        { h with mem := fun p => if p ∈ audience h m then enqueue (h.mem p) m else h.mem p } m2 =
          audience h m2 := by
      refine audience_congr h _ m2 rfl rfl ?_
      intro c
      show (if c ∈ audience h m then enqueue (h.mem c) m else h.mem c).userID = _
      split_ifs
      · exact enqueue_userID _ _
      · rfl
    refine ⟨_, handleBroadcast_spec _ m2 ?_, ?_⟩
    · rw [haud]
      intro c hc
      show (if c ∈ audience h m then enqueue (h.mem c) m else h.mem c).send.closed = false
      split_ifs
      · rw [enqueue_closed]; exact hopen2 c hc
      · exact hopen2 c hc
    · intro hs
      show (if r ∈ audience _ m2 then
          enqueue (if r ∈ audience h m then enqueue (h.mem r) m else h.mem r) m2
        else (if r ∈ audience h m then enqueue (h.mem r) m else h.mem r)).send.buf = _
      rw [haud, if_pos hr2, if_pos hr]
      have hs1 : (h.mem r).send.buf.length < (h.mem r).send.cap := by omega
      rw [enqueue_of_spare (h.mem r) m hs1, enqueue_of_spare]
      · simp
      · simp; omega

/-- Witness for C6: in the sample hub with client 4 full, an envelope for
channel `idA` resolves to clients 3 and 4. -/
theorem delivery_policy_witness :
    audience hubFull msgA = [3, 4] ∧
    (∀ c ∈ audience hubFull msgA, (hubFull.mem c).send.closed = false) ∧
    ¬ (hubFull.mem 4).send.buf.length < (hubFull.mem 4).send.cap ∧
    ∃ h1, handleBroadcast hubFull msgA = some h1 ∧
      ((hubFull.mem 4).send.buf.length < (hubFull.mem 4).send.cap →
        (h1.mem 4).send.buf = (hubFull.mem 4).send.buf ++ [msgA]) ∧
      (¬ (hubFull.mem 4).send.buf.length < (hubFull.mem 4).send.cap →
        h1.mem 4 = hubFull.mem 4) ∧
      (∀ buf2, ∃ h2,
        handleBroadcast (withQueue hubFull 4 buf2) msgA = some h2 ∧
        ∀ q, q ≠ 4 → h2.mem q = h1.mem q) ∧
      (∀ m2, 4 ∈ audience hubFull m2 →
        (∀ c ∈ audience hubFull m2, (hubFull.mem c).send.closed = false) →
        ∃ h3, handleBroadcast h1 m2 = some h3 ∧
          ((hubFull.mem 4).send.buf.length + 2 ≤ (hubFull.mem 4).send.cap →
            (h3.mem 4).send.buf = (hubFull.mem 4).send.buf ++ [msgA, m2])) :=
  ⟨by decide, by decide, by decide, delivery_policy hubFull msgA 4 (by decide) (by decide)⟩

/-- C6 as stated fails: client 3 is registered, in channel `idA`, open and
empty, client 4 was unregistered and then joined to the same channel; an
envelope for the channel resolves to both, and `handleBroadcast` panics on the
closed queue of 4, which holds 0 of 2 envelopes, instead of completing with the
envelope at the tail of every queue that has spare capacity. -/
theorem delivery_policy_counterexample :
    ∃ h ∈ run (NewHub memOpen)
        [.register 3, .join "channel" idA 3, .register 4, .unregister 4,
          .join "channel" idA 4],
      audience h msgA = [3, 4] ∧ (h.mem 3).send.closed = false ∧
      (h.mem 3).send.buf.length < (h.mem 3).send.cap ∧
      handleBroadcast h msgA = none := by
  decide

/-! ## Absence of faults -/

theorem LeaveRoom_of_not_member (h : Hub) (roomType : String) (id : UUID) (c : ClientPtr)
    (hne : ∀ k room, h.rooms.get? k = some room → room.len ≠ 0)
    (hc : c ∉ members h (roomType ++ ":" ++ id.String)) :
    LeaveRoom h roomType id c = h := by
  unfold LeaveRoom
  simp only
  cases hg : h.rooms.get? (roomType ++ ":" ++ id.String) with
  | none => simp
  | some room =>
    have hck : c ∉ room.keys := by
      unfold members at hc
      rw [GoMap.index_eq_of_get? h.rooms _ room hg] at hc
      exact hc
    have hm : h.rooms.modify (roomType ++ ":" ++ id.String) (fun room => room.delete c) =
        h.rooms := by
      apply GoMap.modify_eq_self
      intro v hv
      rw [hg] at hv
      have := Option.some.inj hv
      subst this
      exact GoMap.delete_eq_self _ c hck
    rw [hm, GoMap.index_eq_of_get? h.rooms _ room hg]
    simp [hne _ room hg]

theorem step_live (h : Hub) (op : Op)
    (hlive : ∀ c, (c ∈ registered h ∨ ∃ k, c ∈ members h k) → (h.mem c).send.closed = false)
    (hadm : ∀ client, (op = .register client ∨ ∃ roomType id, op = .join roomType id client) →
      (h.mem client).send.closed = false) :
    ∃ h1, step h op = some h1 ∧
      ∀ c, (c ∈ registered h1 ∨ ∃ k, c ∈ members h1 k) → (h1.mem c).send.closed = false := by
  cases op with
  | register client =>
    refine ⟨_, rfl, ?_⟩
    intro c hc
    show (h.mem c).send.closed = false
    rcases hc with hc | hc
    · rcases (mem_registered_register h client c).1 hc with he | hr
      · subst he; exact hadm c (Or.inl rfl)
      · exact hlive c (Or.inl hr)
    · exact hlive c (Or.inr hc)
  | unregister client =>
    by_cases hreg : client ∈ registered h
    · have hopen := hlive client (Or.inl hreg)
      refine ⟨_, unregister_eq h client hreg hopen, ?_⟩
      intro c hc
      have hne : c ≠ client := by
        rcases hc with hc | ⟨k, hc⟩
        · exact ((GoMap.mem_keys_delete h.clients client c).1 hc).1
        · rw [members_of_unregistered h _ client rfl k, List.mem_filter] at hc
          simpa using hc.2
      have hold : c ∈ registered h ∨ ∃ k, c ∈ members h k := by
        rcases hc with hc | ⟨k, hc⟩
        · exact Or.inl ((GoMap.mem_keys_delete h.clients client c).1 hc).2
        · rw [members_of_unregistered h _ client rfl k, List.mem_filter] at hc
          exact Or.inr ⟨k, hc.1⟩
      show (Function.update h.mem client _ c).send.closed = false
      rw [Function.update_noteq hne]
      exact hlive c hold
    · exact ⟨h, unregister_absent h client hreg, hlive⟩
  | join roomType id client =>
    refine ⟨_, rfl, ?_⟩
    intro c hc
    show (h.mem c).send.closed = false
    have hreg : registered (JoinRoom h roomType id client) = registered h := rfl
    rcases hc with hc | ⟨k, hc⟩
    · rw [hreg] at hc; exact hlive c (Or.inl hc)
    · rcases (mem_members_JoinRoom h roomType id client c k).1 hc with ⟨_, he⟩ | hm
      · subst he; exact hadm c (Or.inr ⟨roomType, id, rfl⟩)
      · exact hlive c (Or.inr ⟨k, hm⟩)
  | leave roomType id client =>
    refine ⟨_, rfl, ?_⟩
    intro c hc
    have hmem : (LeaveRoom h roomType id client).mem = h.mem := by
      unfold LeaveRoom
      simp only
      split_ifs <;> rfl
    have hreg : registered (LeaveRoom h roomType id client) = registered h := by
      unfold LeaveRoom registered
      simp only
      split_ifs <;> rfl
    rw [hmem]
    rcases hc with hc | ⟨k, hc⟩
    · rw [hreg] at hc; exact hlive c (Or.inl hc)
    · rw [members_LeaveRoom] at hc
      by_cases hk : k = roomType ++ ":" ++ id.String
      · rw [if_pos hk] at hc
        exact hlive c (Or.inr ⟨k, (List.mem_filter.1 hc).1⟩)
      · rw [if_neg hk] at hc
        exact hlive c (Or.inr ⟨k, hc⟩)
  | broadcast message =>
    have hopen : ∀ c ∈ audience h message, (h.mem c).send.closed = false :=
      fun c hc => hlive c (mem_audience_live h message c hc)
    refine ⟨_, handleBroadcast_spec h message hopen, ?_⟩
    intro c hc
    show (if c ∈ audience h message then enqueue (h.mem c) message else h.mem c).send.closed = false
    split_ifs
    · rw [enqueue_closed]; exact hlive c hc
    · exact hlive c hc

theorem run_live (ops : List Op) (h : Hub)
    (hlive : ∀ c, (c ∈ registered h ∨ ∃ k, c ∈ members h k) → (h.mem c).send.closed = false)
    (ha : admitsOpen h ops = true) :
    ∃ h1, run h ops = some h1 ∧
      ∀ c, (c ∈ registered h1 ∨ ∃ k, c ∈ members h1 k) → (h1.mem c).send.closed = false := by
  induction ops generalizing h with
  | nil => exact ⟨h, rfl, hlive⟩
  | cons op ops ih =>
    unfold admitsOpen at ha
    rw [Bool.and_eq_true] at ha
    obtain ⟨h2, hs, hlive2⟩ := step_live h op hlive (by
      intro client hop
      rcases hop with hop | ⟨roomType, id, hop⟩
      · subst hop; simpa using ha.1
      · subst hop; simpa using ha.1)
    have ha2 := ha.2
    rw [hs] at ha2
    obtain ⟨h1, hr, hlive1⟩ := ih h2 hlive2 ha2
    refine ⟨h1, ?_, hlive1⟩
    unfold run
    rw [hs]
    exact hr

/-- C7, amended: every finite sequence of Register, Unregister, JoinRoom,
LeaveRoom and Broadcast requests from NewHub() in which Register and JoinRoom
are only called for handles whose outbound queue has not been closed runs to
completion without a fault; in the state it reaches no handle in the Registry or
in a room has a closed queue, and for a handle whose queue is closed Unregister
and LeaveRoom leave the state as it is and every Broadcast completes without
touching that handle. -/
theorem no_fault (mem : ClientPtr → Client) (ops : List Op)
    (ha : admitsOpen (NewHub mem) ops = true) :
    ∃ h, run (NewHub mem) ops = some h ∧
      (∀ c, (c ∈ registered h ∨ ∃ k, c ∈ members h k) → (h.mem c).send.closed = false) ∧
      (∀ c, (h.mem c).send.closed = true →
        unregister h c = some h ∧
        (∀ roomType id, LeaveRoom h roomType id c = h) ∧
        (∀ m, ∃ h1, handleBroadcast h m = some h1 ∧ h1.mem c = h.mem c)) := by
  obtain ⟨h, hr, hlive⟩ := run_live ops (NewHub mem) (by
    intro c hc
    simp [members, registered, NewHub, GoMap.index, GoMap.get?, GoMap.empty, lookupL,
      GoMap.keys] at hc) ha
  have hne := run_rooms_nonempty ops (NewHub mem) h (by
    intro k room hg
    simp [NewHub, GoMap.get?, GoMap.empty, lookupL] at hg) hr
  refine ⟨h, hr, hlive, ?_⟩
  intro c hclosed
  have hout : ¬ (c ∈ registered h ∨ ∃ k, c ∈ members h k) := by
    intro hc
    rw [hlive c hc] at hclosed
    exact Bool.noConfusion hclosed
  refine ⟨unregister_absent h c (fun hc => hout (Or.inl hc)), ?_, ?_⟩
  · intro roomType id
    exact LeaveRoom_of_not_member h roomType id c hne (fun hc => hout (Or.inr ⟨_, hc⟩))
  · intro m
    obtain ⟨h1, hb, _, _, _, hsame⟩ := handleBroadcast_pointwise h m
      (fun d hd => hlive d (mem_audience_live h m d hd))
    exact ⟨h1, hb, hsame c (fun hh => hout (mem_audience_live h m c hh.1))⟩

/-- Witness for C7: the orderly sample sequence ends with client 3
unregistered. -/
theorem no_fault_witness :
    admitsOpen (NewHub memOpen) opsOrderly = true ∧
    (∃ h ∈ run (NewHub memOpen) opsOrderly, (h.mem 3).send.closed = true) ∧
    ∃ h, run (NewHub memOpen) opsOrderly = some h ∧
      (∀ c, (c ∈ registered h ∨ ∃ k, c ∈ members h k) → (h.mem c).send.closed = false) ∧
      (∀ c, (h.mem c).send.closed = true →
        unregister h c = some h ∧
        (∀ roomType id, LeaveRoom h roomType id c = h) ∧
        (∀ m, ∃ h1, handleBroadcast h m = some h1 ∧ h1.mem c = h.mem c)) :=
  ⟨by decide, by decide, no_fault memOpen opsOrderly (by decide)⟩

/-- C7 as stated fails, twice over: with every queue open at the start,
Register(3), Unregister(3), JoinRoom(channel, idA, 3) followed by a Broadcast to
that channel panics on a send to the closed queue, and Register(3),
Unregister(3), Register(3), Unregister(3) panics on the second close. -/
theorem no_fault_counterexample :
    (∀ c, (memOpen c).send.closed = false) ∧
    run (NewHub memOpen)
      [.register 3, .unregister 3, .join "channel" idA 3, .broadcast msgA] = none ∧
    (run (NewHub memOpen)
      [.register 3, .unregister 3, .join "channel" idA 3]).isSome = true ∧
    run (NewHub memOpen)
      [.register 3, .unregister 3, .register 3, .unregister 3] = none ∧
    (run (NewHub memOpen) [.register 3, .unregister 3, .register 3]).isSome = true :=
  ⟨fun _ => rfl, by decide, by decide, by decide, by decide⟩

/-! ## Idempotence of room membership -/

theorem JoinRoom_idem (h : Hub) (roomType : String) (id : UUID) (c : ClientPtr) :
    JoinRoom (JoinRoom h roomType id c) roomType id c = JoinRoom h roomType id c := by
  have hg := get?_rooms_JoinRoom h roomType id c (roomType ++ ":" ++ id.String)
  rw [if_pos rfl] at hg
  have hne : ¬ (JoinRoom h roomType id c).rooms.get? (roomType ++ ":" ++ id.String) = none := by
    rw [hg]; simp
  have hm : (JoinRoom h roomType id c).rooms.modify (roomType ++ ":" ++ id.String)
      (fun room => room.set c true) = (JoinRoom h roomType id c).rooms := by
    apply GoMap.modify_eq_self
    intro v hv
    rw [hg] at hv
    have := Option.some.inj hv
    subst this
    apply GoMap.set_eq_self
    rw [GoMap.get?_set, if_pos rfl]
  generalize JoinRoom h roomType id c = g at hg hne hm ⊢
  unfold JoinRoom
  simp only [hne, if_false, hm]

theorem LeaveRoom_absent (h : Hub) (roomType : String) (id : UUID) (c : ClientPtr)
    (hg : h.rooms.get? (roomType ++ ":" ++ id.String) = none) :
    LeaveRoom h roomType id c = h := by
  unfold LeaveRoom
  simp [hg]

theorem LeaveRoom_idem (h : Hub) (roomType : String) (id : UUID) (c : ClientPtr) :
    LeaveRoom (LeaveRoom h roomType id c) roomType id c = LeaveRoom h roomType id c := by
  have hg := get?_rooms_LeaveRoom h roomType id c (roomType ++ ":" ++ id.String)
  rw [if_pos rfl] at hg
  cases hp : pruned c (h.rooms.get? (roomType ++ ":" ++ id.String)) with
  | none =>
    rw [hp] at hg
    exact LeaveRoom_absent _ roomType id c hg
  | some room =>
    rw [hp] at hg
    have hlen := pruned_some_len c _ room hp
    have hck : c ∉ room.keys := by
      cases ho : h.rooms.get? (roomType ++ ":" ++ id.String) with
      | none => rw [ho] at hp; simp [pruned] at hp
      | some s =>
        rw [ho] at hp
        simp only [pruned] at hp
        by_cases hl : (s.delete c).len = 0
        · rw [if_pos hl] at hp; simp at hp
        · rw [if_neg hl] at hp
          have := Option.some.inj hp
          subst this
          intro hc
          exact ((GoMap.mem_keys_delete s c c).1 hc).1 rfl
    have hm : (LeaveRoom h roomType id c).rooms.modify (roomType ++ ":" ++ id.String)
        (fun room => room.delete c) = (LeaveRoom h roomType id c).rooms := by
      apply GoMap.modify_eq_self
      intro v hv
      rw [hg] at hv
      have := Option.some.inj hv
      subst this
      exact GoMap.delete_eq_self _ c hck
    generalize LeaveRoom h roomType id c = g at hg hm ⊢
    unfold LeaveRoom
    simp only [hm, GoMap.index_eq_of_get? _ _ room hg, hg]
    simp [hlen]

/-- C8, amended: for every hub state, scope string, id and handle `c`, JoinRoom
applied twice yields the state JoinRoom yields once, in which `c` occurs once
among the members of the room, so that every broadcast does after two joins
what it does after one, and, provided no member of the room has a closed queue
and `c` has spare capacity, a broadcast to that room appends the envelope once
to the queue of `c`; LeaveRoom applied twice yields the state LeaveRoom yields
once; and LeaveRoom on a key absent from the index leaves the state
unchanged. -/
theorem membership_idempotent (h : Hub) (roomType : String) (id : UUID) (c : ClientPtr) :
    JoinRoom (JoinRoom h roomType id c) roomType id c = JoinRoom h roomType id c ∧
    (members (JoinRoom h roomType id c) (roomType ++ ":" ++ id.String)).count c = 1 ∧
    (∀ m, handleBroadcast (JoinRoom (JoinRoom h roomType id c) roomType id c) m =
      handleBroadcast (JoinRoom h roomType id c) m) ∧
    (∀ m, ((roomType = "channel" ∧ m.ChannelID = some id) ∨
        (roomType = "workspace" ∧ m.ChannelID = none ∧ m.WorkspaceID = some id)) →
      (∀ d ∈ members (JoinRoom h roomType id c) (roomType ++ ":" ++ id.String),
        (h.mem d).send.closed = false) →
      (h.mem c).send.buf.length < (h.mem c).send.cap →
      ∃ h1, handleBroadcast (JoinRoom (JoinRoom h roomType id c) roomType id c) m = some h1 ∧
        (h1.mem c).send.buf = (h.mem c).send.buf ++ [m]) ∧
    LeaveRoom (LeaveRoom h roomType id c) roomType id c = LeaveRoom h roomType id c ∧
    (h.rooms.get? (roomType ++ ":" ++ id.String) = none → LeaveRoom h roomType id c = h) := by
  have hmem : c ∈ members (JoinRoom h roomType id c) (roomType ++ ":" ++ id.String) :=
    (mem_members_JoinRoom h roomType id c c _).2 (Or.inl ⟨rfl, rfl⟩)
  refine ⟨JoinRoom_idem h roomType id c, ?_, ?_, ?_, LeaveRoom_idem h roomType id c,
    LeaveRoom_absent h roomType id c⟩
  · exact List.count_eq_one_of_mem (GoMap.nodup _) hmem
  · intro m
    rw [JoinRoom_idem]
  · intro m hscope hopen hs
    rw [JoinRoom_idem]
    have haud := audience_room (JoinRoom h roomType id c) m roomType id hscope
    obtain ⟨h1, hb, _, _, hin, _⟩ := handleBroadcast_pointwise (JoinRoom h roomType id c) m
      (by rw [haud]; exact hopen)
    refine ⟨h1, hb, ?_⟩
    rw [hin c (by rw [haud]; exact hmem) hs]
    rfl

/-- Witness for C8: client 3 joins channel `idA` of the sample hub a second and
a third time, and an envelope for the channel reaches it once. -/
theorem membership_idempotent_witness :
    ((("channel" : String) = "channel" ∧ msgA.ChannelID = some idA) ∨
      (("channel" : String) = "workspace" ∧ msgA.ChannelID = none ∧
        msgA.WorkspaceID = some idA)) ∧
    (∀ d ∈ members (JoinRoom hubTwo "channel" idA 3) ("channel" ++ ":" ++ idA.String),
      (hubTwo.mem d).send.closed = false) ∧
    (hubTwo.mem 3).send.buf.length < (hubTwo.mem 3).send.cap ∧
    hubTwo.rooms.get? ("channel" ++ ":" ++ idB.String) = none ∧
    (∃ h1, handleBroadcast (JoinRoom (JoinRoom hubTwo "channel" idA 3) "channel" idA 3) msgA =
        some h1 ∧ (h1.mem 3).send.buf = (hubTwo.mem 3).send.buf ++ [msgA]) ∧
    LeaveRoom hubTwo "channel" idB 3 = hubTwo :=
  ⟨by decide, by decide, by decide, by decide,
    (membership_idempotent hubTwo "channel" idA 3).2.2.2.1 msgA (by decide) (by decide)
      (by decide),
    (membership_idempotent hubTwo "channel" idB 3).2.2.2.2.2 (by decide)⟩

/-- C8 as stated fails in its delivery clause: after Register(4) and two global
broadcasts the queue of 4 is full, and after JoinRoom(channel, idA, 4) twice a
broadcast to that channel completes with the queue of 4 as it was, the
envelope enqueued zero times; and after Register(3), Unregister(3) the queue of
3 is closed, and after JoinRoom(channel, idA, 3) twice a broadcast to that
channel panics. -/
theorem membership_idempotent_counterexample :
    (∃ h ∈ run (NewHub memOpen)
        [.register 4, .broadcast msgGlobal, .broadcast msgGlobal,
          .join "channel" idA 4, .join "channel" idA 4],
      members h ("channel" ++ ":" ++ idA.String) = [4] ∧
      ∃ h1 ∈ handleBroadcast h msgA,
        (h1.mem 4).send.buf = (h.mem 4).send.buf ∧ (h1.mem 4).send.buf.count msgA = 0) ∧
    (∃ h ∈ run (NewHub memOpen)
        [.register 3, .unregister 3, .join "channel" idA 3, .join "channel" idA 3],
      members h ("channel" ++ ":" ++ idA.String) = [3] ∧ handleBroadcast h msgA = none) := by
  decide

/-! ## Leaving a room -/

theorem members_JoinRoom_absent (h : Hub) (roomType : String) (id : UUID) (d : ClientPtr)
    (hg : h.rooms.get? (roomType ++ ":" ++ id.String) = none) :
    members (JoinRoom h roomType id d) (roomType ++ ":" ++ id.String) = [d] := by
  have hj := get?_rooms_JoinRoom h roomType id d (roomType ++ ":" ++ id.String)
  rw [if_pos rfl] at hj
  unfold members
  rw [GoMap.index_eq_of_get? _ _ _ hj]
  have hi : h.rooms.index (roomType ++ ":" ++ id.String) = GoMap.empty := by
    unfold GoMap.index; rw [hg]; rfl
  rw [hi]
  rfl

theorem get?_none_of_members_nil (h : Hub) (k : String)
    (hne : ∀ room, h.rooms.get? k = some room → room.len ≠ 0) (hm : members h k = []) :
    h.rooms.get? k = none := by
  cases hg : h.rooms.get? k with
  | none => rfl
  | some room =>
    exfalso
    unfold members at hm
    rw [GoMap.index_eq_of_get? _ _ room hg] at hm
    exact hne room hg ((GoMap.len_eq_zero_iff room).2 hm)

/-- C9: for every hub state, LeaveRoom(scope, id, c) yields a state in which the
members of room `(scope, id)` are the previous members without `c`, every other
room, the Registry and the client memory are unchanged, and the key is absent
from the index whenever no member is left; so if `c` was the only member the
key is absent afterwards, and a following JoinRoom(scope, id, d) produces a room
whose only member is `d`. -/
theorem leave_room (h : Hub) (roomType : String) (id : UUID) (c : ClientPtr) :
    members (LeaveRoom h roomType id c) (roomType ++ ":" ++ id.String) =
      (members h (roomType ++ ":" ++ id.String)).filter (fun a => decide (a ≠ c)) ∧
    (∀ k, k ≠ roomType ++ ":" ++ id.String →
      (LeaveRoom h roomType id c).rooms.get? k = h.rooms.get? k) ∧
    (LeaveRoom h roomType id c).clients = h.clients ∧
    (LeaveRoom h roomType id c).mem = h.mem ∧
    (members (LeaveRoom h roomType id c) (roomType ++ ":" ++ id.String) = [] →
      (LeaveRoom h roomType id c).rooms.get? (roomType ++ ":" ++ id.String) = none) ∧
    (members h (roomType ++ ":" ++ id.String) = [c] →
      (LeaveRoom h roomType id c).rooms.get? (roomType ++ ":" ++ id.String) = none ∧
      ∀ d, members (JoinRoom (LeaveRoom h roomType id c) roomType id d)
        (roomType ++ ":" ++ id.String) = [d]) := by
  have hmem := members_LeaveRoom h roomType id c (roomType ++ ":" ++ id.String)
  rw [if_pos rfl] at hmem
  have hg := get?_rooms_LeaveRoom h roomType id c (roomType ++ ":" ++ id.String)
  rw [if_pos rfl] at hg
  have habs : members (LeaveRoom h roomType id c) (roomType ++ ":" ++ id.String) = [] →
      (LeaveRoom h roomType id c).rooms.get? (roomType ++ ":" ++ id.String) = none := by
    intro hnil
    apply get?_none_of_members_nil _ _ _ hnil
    intro room hr
    rw [hg] at hr
    exact pruned_some_len c _ room hr
  refine ⟨hmem, ?_, ?_, ?_, habs, ?_⟩
  · intro k hk
    rw [get?_rooms_LeaveRoom, if_neg hk]
  · unfold LeaveRoom
    simp only
    split_ifs <;> rfl
  · unfold LeaveRoom
    simp only
    split_ifs <;> rfl
  · intro honly
    have hnil : members (LeaveRoom h roomType id c) (roomType ++ ":" ++ id.String) = [] := by
      rw [hmem, honly]
      simp
    exact ⟨habs hnil, fun d => members_JoinRoom_absent _ roomType id d (habs hnil)⟩

/-- Witness for C9: client 3 is the only member of workspace `idB` in the sample
hub; after it leaves, client 5 joins and is alone in the room. -/
theorem leave_room_witness :
    members hubTwo ("workspace" ++ ":" ++ idB.String) = [3] ∧
    (LeaveRoom hubTwo "workspace" idB 3).rooms.get? ("workspace" ++ ":" ++ idB.String) = none ∧
    ∀ d, members (JoinRoom (LeaveRoom hubTwo "workspace" idB 3) "workspace" idB d)
      ("workspace" ++ ":" ++ idB.String) = [d] :=
  ⟨by decide, (leave_room hubTwo "workspace" idB 3).2.2.2.2.2 (by decide)⟩

/-! ## Room keys -/

theorem hextable_injective :
    ∀ a b : Fin 16, hextable.getD a.val '0' = hextable.getD b.val '0' → a = b := by
  decide

theorem hex_byte_injective (v w : Fin 256)
    (hhi : hextable.getD (v.val / 16) '0' = hextable.getD (w.val / 16) '0')
    (hlo : hextable.getD (v.val % 16) '0' = hextable.getD (w.val % 16) '0') : v = w := by
  have h1 := hextable_injective ⟨v.val / 16, by omega⟩ ⟨w.val / 16, by omega⟩ hhi
  have h2 := hextable_injective ⟨v.val % 16, by omega⟩ ⟨w.val % 16, by omega⟩ hlo
  have h1' : v.val / 16 = w.val / 16 := congrArg Fin.val h1
  have h2' : v.val % 16 = w.val % 16 := congrArg Fin.val h2
  apply Fin.ext
  omega

theorem encodeHex_cons (v : Fin 256) (vs : List (Fin 256)) :
    encodeHex (v :: vs) =
      hextable.getD (v.val / 16) '0' :: hextable.getD (v.val % 16) '0' :: encodeHex vs := by
  simp [encodeHex]

theorem encodeHex_length (vs : List (Fin 256)) : (encodeHex vs).length = 2 * vs.length := by
  induction vs with
  | nil => rfl
  | cons v vs ih => rw [encodeHex_cons]; simp [ih]; omega

theorem encodeHex_injective (l1 l2 : List (Fin 256)) (h : encodeHex l1 = encodeHex l2) :
    l1 = l2 := by
  induction l1 generalizing l2 with
  | nil =>
    cases l2 with
    | nil => rfl
    | cons w ws => rw [encodeHex_cons] at h; simp [encodeHex] at h
  | cons v vs ih =>
    cases l2 with
    | nil => rw [encodeHex_cons] at h; simp [encodeHex] at h
    | cons w ws =>
      rw [encodeHex_cons, encodeHex_cons] at h
      have h1 := List.cons.inj h
      have h2 := List.cons.inj h1.2
      rw [hex_byte_injective v w h1.1 h2.1, ih ws h2.2]

theorem bytes_split (l : List (Fin 256)) :
    l = l.take 4 ++ ((l.drop 4).take 2 ++ ((l.drop 6).take 2 ++
      ((l.drop 8).take 2 ++ l.drop 10))) := by
  have e1 : (l.drop 8).take 2 ++ l.drop 10 = l.drop 8 := by
    have := List.take_append_drop 2 (l.drop 8)
    rwa [List.drop_drop] at this
  have e2 : (l.drop 6).take 2 ++ l.drop 8 = l.drop 6 := by
    have := List.take_append_drop 2 (l.drop 6)
    rwa [List.drop_drop] at this
  have e3 : (l.drop 4).take 2 ++ l.drop 6 = l.drop 4 := by
    have := List.take_append_drop 2 (l.drop 4)
    rwa [List.drop_drop] at this
  rw [e1, e2, e3, List.take_append_drop]

theorem UUID.String_length (u : UUID) : u.String.length = 36 := by
  have hs := u.size
  show (u.String).data.length = 36
  simp only [UUID.String, List.length_append, List.length_cons, encodeHex_length,
    List.length_take, List.length_drop, hs]
  rfl

theorem UUID.String_injective (u1 u2 : UUID) (h : u1.String = u2.String) : u1 = u2 := by
  have hd : (u1.String).data = (u2.String).data := by rw [h]
  simp only [UUID.String] at hd
  have s1 := u1.size
  have s2 := u2.size
  obtain ⟨a1, r1⟩ := List.append_inj hd (by
    simp only [encodeHex_length, List.length_take, s1, s2])
  obtain ⟨a2, r2⟩ := List.append_inj (List.cons.inj r1).2 (by
    simp only [encodeHex_length, List.length_take, List.length_drop, s1, s2])
  obtain ⟨a3, r3⟩ := List.append_inj (List.cons.inj r2).2 (by
    simp only [encodeHex_length, List.length_take, List.length_drop, s1, s2])
  obtain ⟨a4, r4⟩ := List.append_inj (List.cons.inj r3).2 (by
    simp only [encodeHex_length, List.length_take, List.length_drop, s1, s2])
  have a5 := (List.cons.inj r4).2
  have hb : u1.bytes = u2.bytes := by
    rw [bytes_split u1.bytes, bytes_split u2.bytes, encodeHex_injective _ _ a1,
      encodeHex_injective _ _ a2, encodeHex_injective _ _ a3, encodeHex_injective _ _ a4,
      encodeHex_injective _ _ a5]
  cases u1; cases u2
  simp only at hb
  subst hb
  rfl

theorem roomID_eq_iff (s1 s2 : String) (u1 u2 : UUID) :
    s1 ++ ":" ++ u1.String = s2 ++ ":" ++ u2.String ↔ s1 = s2 ∧ u1 = u2 := by
  constructor
  · intro h
    have hd : (s1 ++ ":" ++ u1.String).data = (s2 ++ ":" ++ u2.String).data := by rw [h]
    simp only [String.data_append] at hd
    have hl : (u1.String).data.length = (u2.String).data.length := by
      have e1 : (u1.String).data.length = 36 := UUID.String_length u1
      have e2 : (u2.String).data.length = 36 := UUID.String_length u2
      rw [e1, e2]
    obtain ⟨p, q⟩ := List.append_inj' hd hl
    obtain ⟨p1, _⟩ := List.append_inj' p rfl
    exact ⟨String.ext p1, UUID.String_injective u1 u2 (String.ext q)⟩
  · rintro ⟨rfl, rfl⟩
    rfl

/-- C10: the room key `roomType + ":" + id.String()`, with `id.String()` the
36-character hyphenated text, determines the pair: two keys are equal iff the
scope strings are equal and the UUIDs are equal; so JoinRoom puts the client in
the room of its own key and leaves the room of every other (scope, id) pair as
it was, and `handleBroadcast` runs its send loop over the room stored under the
key of JoinRoom("channel", id, _) for a channel envelope and of
JoinRoom("workspace", id, _) for a workspace envelope. -/
theorem room_key_injective (s1 s2 : String) (u1 u2 : UUID) :
    u1.String.length = 36 ∧
    (s1 ++ ":" ++ u1.String = s2 ++ ":" ++ u2.String ↔ s1 = s2 ∧ u1 = u2) ∧
    (∀ h c, c ∈ members (JoinRoom h s1 u1 c) (s1 ++ ":" ++ u1.String) ∧
      (¬ (s1 = s2 ∧ u1 = u2) →
        members (JoinRoom h s1 u1 c) (s2 ++ ":" ++ u2.String) =
          members h (s2 ++ ":" ++ u2.String))) ∧
    (∀ h m, m.ChannelID = some u1 →
      handleBroadcast h m =
        (sendAll m (h.rooms.index ("channel" ++ ":" ++ u1.String)) h.mem).map
          (fun mem => { h with mem := mem })) ∧
    (∀ h m, m.ChannelID = none → m.WorkspaceID = some u1 →
      handleBroadcast h m =
        (sendAll m (h.rooms.index ("workspace" ++ ":" ++ u1.String)) h.mem).map
          (fun mem => { h with mem := mem })) := by
  refine ⟨UUID.String_length u1, roomID_eq_iff s1 s2 u1 u2, ?_, ?_, ?_⟩
  · intro h c
    refine ⟨(mem_members_JoinRoom h s1 u1 c c _).2 (Or.inl ⟨rfl, rfl⟩), ?_⟩
    intro hne
    have hk : ¬ s2 ++ ":" ++ u2.String = s1 ++ ":" ++ u1.String := by
      intro he
      have := (roomID_eq_iff s2 s1 u2 u1).1 he
      exact hne ⟨this.1.symm, this.2.symm⟩
    have hg := get?_rooms_JoinRoom h s1 u1 c (s2 ++ ":" ++ u2.String)
    rw [if_neg hk] at hg
    unfold members
    rw [index_congr _ _ _ hg]
  · intro h m hc
    unfold handleBroadcast
    rw [hc]
    rfl
  · intro h m hc hw
    unfold handleBroadcast
    rw [hc, hw]
    rfl

/-- Witness for C10: the channel and the workspace of one identifier are two
rooms, and so are the channels of two identifiers. -/
theorem room_key_injective_witness :
    ¬ (("channel" : String) = "workspace" ∧ idA = idA) ∧
    ¬ (("channel" : String) = "channel" ∧ idA = idB) ∧
    members (JoinRoom hubTwo "channel" idA 5) ("workspace" ++ ":" ++ idA.String) =
      members hubTwo ("workspace" ++ ":" ++ idA.String) ∧
    members (JoinRoom hubTwo "channel" idA 5) ("channel" ++ ":" ++ idB.String) =
      members hubTwo ("channel" ++ ":" ++ idB.String) ∧
    handleBroadcast hubTwo msgA =
      (sendAll msgA (hubTwo.rooms.index ("channel" ++ ":" ++ idA.String)) hubTwo.mem).map
        (fun mem => { hubTwo with mem := mem }) :=
  ⟨by decide, by decide,
    ((room_key_injective "channel" "workspace" idA idA).2.2.1 hubTwo 5).2 (by decide),
    ((room_key_injective "channel" "channel" idA idB).2.2.1 hubTwo 5).2 (by decide),
    (room_key_injective "channel" "channel" idA idA).2.2.2.1 hubTwo msgA (by decide)⟩

/-! ## Unregister of a handle that is not registered -/

/-- C11: for every hub state and every handle `c` that is not in the Registry,
serving Unregister(c) returns the hub state as it was, Registry, Room Index and
every queue; so whenever a first Unregister(c) completes, `c` is out of the
Registry and a second Unregister(c) changes nothing, and for a registered
handle with an open queue the first call closes the queue and the second
leaves it closed, without closing it again. -/
theorem unregister_not_registered (h : Hub) (c : ClientPtr) :
    (c ∉ registered h → unregister h c = some h) ∧
    (∀ h1, unregister h c = some h1 → c ∉ registered h1 ∧ unregister h1 c = some h1) ∧
    (c ∈ registered h → (h.mem c).send.closed = false →
      ∃ h1, unregister h c = some h1 ∧ (h1.mem c).send.closed = true ∧
        unregister h1 c = some h1) := by
  have second : ∀ h1, unregister h c = some h1 → c ∉ registered h1 := by
    intro h1 hu
    by_cases hreg : c ∈ registered h
    · by_cases hopen : (h.mem c).send.closed = false
      · rw [unregister_eq h c hreg hopen] at hu
        have := Option.some.inj hu
        subst this
        intro hc
        exact ((GoMap.mem_keys_delete h.clients c c).1 hc).1 rfl
      · exfalso
        unfold unregister closeChan at hu
        rw [if_pos ((contains_iff_mem_registered h c).2 hreg)] at hu
        simp [hopen] at hu
    · rw [unregister_absent h c hreg] at hu
      have := Option.some.inj hu
      subst this
      exact hreg
  refine ⟨unregister_absent h c, ?_, ?_⟩
  · intro h1 hu
    exact ⟨second h1 hu, unregister_absent h1 c (second h1 hu)⟩
  · intro hreg hopen
    refine ⟨_, unregister_eq h c hreg hopen, ?_, ?_⟩
    · simp [Function.update_same]
    · exact unregister_absent _ c (second _ (unregister_eq h c hreg hopen))

/-- Witness for C11: client 5 is not registered in the sample hub, client 3 is
registered with an open queue. -/
theorem unregister_not_registered_witness :
    5 ∉ registered hubTwo ∧ 3 ∈ registered hubTwo ∧ (hubTwo.mem 3).send.closed = false ∧
    unregister hubTwo 5 = some hubTwo ∧
    ∃ h1, unregister hubTwo 3 = some h1 ∧ (h1.mem 3).send.closed = true ∧
      unregister h1 3 = some h1 :=
  ⟨by decide, by decide, by decide,
    (unregister_not_registered hubTwo 5).1 (by decide),
    (unregister_not_registered hubTwo 3).2.2 (by decide) (by decide)⟩

/-! ## Workspace service -/

/-- C12: for every repository and store in which FindByID(wsID) returns a
workspace (and no error) whose OwnerID differs from userID, UpdateWorkspace
returns a nil workspace with ErrUnauthorized and DeleteWorkspace returns
ErrUnauthorized; in both cases the only call made on the repository is that
FindByID, so neither Update nor Delete is called, and the store is as the
lookup left it. -/
theorem only_owner_changes {σ : Type} (repo : WorkspaceRepository σ) (s : RepoState σ)
    (userID wsID : UUID) (req : UpdateWorkspaceRequest) (ws : Workspace) (db1 : σ)
    (hfind : repo.FindByID s.db wsID = ((some ws, none), db1))
    (howner : ws.OwnerID ≠ userID) :
    UpdateWorkspace repo s userID wsID req =
      ((none, some .ErrUnauthorized), { db := db1, calls := s.calls ++ [.FindByID wsID] }) ∧
    DeleteWorkspace repo s userID wsID =
      (some .ErrUnauthorized, { db := db1, calls := s.calls ++ [.FindByID wsID] }) := by
  constructor
  · unfold UpdateWorkspace
    simp only [hfind, howner, ne_eq, not_false_eq_true, if_true]
  · unfold DeleteWorkspace
    simp only [hfind, howner, ne_eq, not_false_eq_true, if_true]

/-- Witness for C12: user `idC` tries to rename and to delete the workspace
`idA`, which user `idB` owns. -/
theorem only_owner_changes_witness :
    listRepo.FindByID oneWorkspace.db idA =
      ((some { ID := idA, Name := "General", Slug := "general", IconURL := none,
               OwnerID := idB, CreatedAt := 1, UpdatedAt := 1 }, none), oneWorkspace.db) ∧
    idB ≠ idC ∧
    UpdateWorkspace listRepo oneWorkspace idC idA renameReq =
      ((none, some .ErrUnauthorized),
        { db := oneWorkspace.db, calls := oneWorkspace.calls ++ [.FindByID idA] }) ∧
    DeleteWorkspace listRepo oneWorkspace idC idA =
      (some .ErrUnauthorized,
        { db := oneWorkspace.db, calls := oneWorkspace.calls ++ [.FindByID idA] }) :=
  ⟨by decide, by decide,
    only_owner_changes listRepo oneWorkspace idC idA renameReq
      { ID := idA, Name := "General", Slug := "general", IconURL := none,
        OwnerID := idB, CreatedAt := 1, UpdatedAt := 1 }
      oneWorkspace.db (by decide) (by decide)⟩

/-- C13: for every user id and request: when FindBySlug(req.Slug) returns an
existing workspace and no error, CreateWorkspace returns a nil workspace with
ErrWorkspaceExists and the only call made on the repository is that lookup, so
Create is not called; when FindBySlug returns neither a workspace nor an error
and Create returns no error, CreateWorkspace returns a workspace whose Name,
Slug and IconURL are the request's and whose OwnerID is the calling user. -/
theorem create_workspace {σ : Type} (repo : WorkspaceRepository σ) (newID : UUID)
    (s : RepoState σ) (userID : UUID) (req : CreateWorkspaceRequest) :
    (∀ existing db1, repo.FindBySlug s.db req.Slug = ((some existing, none), db1) →
      CreateWorkspace repo newID s userID req =
        ((none, some .ErrWorkspaceExists),
          { db := db1, calls := s.calls ++ [.FindBySlug req.Slug] })) ∧
    (∀ db1 stamps db2, repo.FindBySlug s.db req.Slug = ((none, none), db1) →
      repo.Create db1
        { ID := newID, Name := req.Name, Slug := req.Slug, IconURL := req.IconURL,
          OwnerID := userID, CreatedAt := 0, UpdatedAt := 0 } userID = ((stamps, none), db2) →
      ∃ ws, CreateWorkspace repo newID s userID req =
          ((some ws, none),
            { db := db2
              calls := s.calls ++ [.FindBySlug req.Slug] ++
                [.Create { ID := newID, Name := req.Name, Slug := req.Slug,
                           IconURL := req.IconURL, OwnerID := userID,
                           CreatedAt := 0, UpdatedAt := 0 } userID] }) ∧
        ws.Name = req.Name ∧ ws.Slug = req.Slug ∧ ws.IconURL = req.IconURL ∧
        ws.OwnerID = userID) := by
  constructor
  · intro existing db1 hfind
    unfold CreateWorkspace
    simp only [hfind]
  · intro db1 stamps db2 hfind hcreate
    unfold CreateWorkspace
    simp only [hfind, hcreate]
    cases stamps with
    | none => exact ⟨_, rfl, rfl, rfl, rfl, rfl⟩
    | some st => exact ⟨_, rfl, rfl, rfl, rfl, rfl⟩

/-- Witness for C13: in the sample store the slug `general` is taken and the
slug `random` is free. -/
theorem create_workspace_witness :
    (∃ existing, listRepo.FindBySlug oneWorkspace.db takenReq.Slug =
      ((some existing, none), oneWorkspace.db)) ∧
    listRepo.FindBySlug oneWorkspace.db freshReq.Slug = ((none, none), oneWorkspace.db) ∧
    CreateWorkspace listRepo idD oneWorkspace idC takenReq =
      ((none, some .ErrWorkspaceExists),
        { db := oneWorkspace.db, calls := oneWorkspace.calls ++ [.FindBySlug takenReq.Slug] }) ∧
    ∃ ws, (CreateWorkspace listRepo idD oneWorkspace idC freshReq).1 = (some ws, none) ∧
      ws.Name = freshReq.Name ∧ ws.Slug = freshReq.Slug ∧ ws.IconURL = freshReq.IconURL ∧
      ws.OwnerID = idC :=
  ⟨⟨_, rfl⟩, by decide,
    (create_workspace listRepo idD oneWorkspace idC takenReq).1 _ oneWorkspace.db rfl,
    ((create_workspace listRepo idD oneWorkspace idC freshReq).2 oneWorkspace.db _ _
      (by decide) rfl).imp fun _ hh => ⟨by rw [hh.1], hh.2⟩⟩

/-! ## CSRF middleware -/

/-- The outcome of the middleware for every request: the safe methods proceed;
any other request proceeds exactly when the Origin header (the Referer header if
Origin is empty) is empty or has an allowed origin as a prefix, and one of the
two custom headers is non-empty; otherwise it is aborted with 403. -/
theorem CSRFMiddleware_outcome (allowedOrigins : List String) (c : Request) :
    ((c.Method = "GET" ∨ c.Method = "HEAD" ∨ c.Method = "OPTIONS") →
      CSRFMiddleware allowedOrigins c = .next) ∧
    (¬ (c.Method = "GET" ∨ c.Method = "HEAD" ∨ c.Method = "OPTIONS") →
      (CSRFMiddleware allowedOrigins c = .next ↔
        (((if c.GetHeader "Origin" = "" then c.GetHeader "Referer" else c.GetHeader "Origin") = ""
            ∨ ∃ o ∈ allowedOrigins, o.toList <+:
              (if c.GetHeader "Origin" = "" then c.GetHeader "Referer"
                else c.GetHeader "Origin").toList) ∧
          (c.GetHeader "X-Requested-With" ≠ "" ∨ c.GetHeader "X-CSRF-Token" ≠ ""))) ∧
      (CSRFMiddleware allowedOrigins c ≠ .next →
        ∃ text, CSRFMiddleware allowedOrigins c = .abort 403 text)) := by
  constructor
  · intro hm
    unfold CSRFMiddleware
    rw [if_pos hm]
  · intro hm
    unfold CSRFMiddleware
    rw [if_neg hm]
    dsimp only
    generalize (if c.GetHeader "Origin" = "" then c.GetHeader "Referer"
      else c.GetHeader "Origin") = origin
    have hb : allowedOrigins.any (fun o => o.toList.isPrefixOf origin.toList) = true ↔
        ∃ o ∈ allowedOrigins, o.toList <+: origin.toList := by
      rw [List.any_eq_true]
      constructor
      · rintro ⟨o, ho, hp⟩
        exact ⟨o, ho, List.isPrefixOf_iff_prefix.1 hp⟩
      · rintro ⟨o, ho, hp⟩
        exact ⟨o, ho, List.isPrefixOf_iff_prefix.2 hp⟩
    by_cases h1 : (!allowedOrigins.any (fun o => o.toList.isPrefixOf origin.toList)) = true ∧
        origin ≠ ""
    · rw [if_pos h1]
      refine ⟨⟨fun hn => Outcome.noConfusion hn, ?_⟩, fun _ => ⟨_, rfl⟩⟩
      rintro ⟨hor, _⟩
      rcases hor with he | hex
      · exact absurd he h1.2
      · have := hb.2 hex
        rw [this] at h1
        exact absurd h1.1 (by decide)
    · rw [if_neg h1]
      by_cases h2 : c.GetHeader "X-Requested-With" = "" ∧ c.GetHeader "X-CSRF-Token" = ""
      · rw [if_pos h2]
        refine ⟨⟨fun hn => Outcome.noConfusion hn, ?_⟩, fun _ => ⟨_, rfl⟩⟩
        rintro ⟨_, hh⟩
        rcases hh with hx | hx
        · exact absurd h2.1 hx
        · exact absurd h2.2 hx
      · rw [if_neg h2]
        refine ⟨⟨fun _ => ⟨?_, ?_⟩, fun _ => rfl⟩, fun hn => absurd rfl hn⟩
        · by_cases ho : origin = ""
          · exact Or.inl ho
          · right
            apply hb.1
            by_contra hcon
            apply h1
            refine ⟨?_, ho⟩
            simpa using hcon
        · by_contra hcon
          push_neg at hcon
          exact h2 hcon

/-- C14 fails on the code: with `https://app.example.com` the only allowed
origin, a POST request whose Origin is `https://app.example.com.evil.io`, not
one of the allowed origins, and which carries X-Requested-With, is passed on to
the next handler; the loop accepts it because the allowed origin is a prefix of
its Origin. -/
theorem csrf_foreign_origin_proceeds :
    foreignPost.Method = "POST" ∧
    foreignPost.GetHeader "Origin" = "https://app.example.com.evil.io" ∧
    foreignPost.GetHeader "Origin" ≠ "" ∧
    foreignPost.GetHeader "Origin" ∉ ["https://app.example.com"] ∧
    foreignPost.GetHeader "X-Requested-With" ≠ "" ∧
    CSRFMiddleware ["https://app.example.com"] foreignPost = .next := by
  decide

end SlackHub
